import Mathlib

/-!
Verification development for the "Drop The Track" round-lifecycle engine
(`src/cogs/DropTheTrack.py`).  The Python source is shallowly embedded:
pure helpers become Lean functions over `String`/`List Char`, the sqlite
tables become lists of records inside a `DB` structure, and the stateful
cog operations become explicit state-passing functions parameterised by an
environment that models the external chat platform (thread creation,
message fetch, webhook send results).
-/

namespace DropTheTrack

/- ============================================================
   String primitives modelling the Python `str` operations used
   ============================================================ -/

/-- ASCII whitespace as matched by Python `str.strip` / regex `\s`
(space, tab, newline, carriage return, vertical tab, form feed). -/
def pyWhitespace (c : Char) : Bool :=
  c == ' ' || c == '\t' || c == '\n' || c == '\r' || c == '\x0b' || c == '\x0c'

/-- `l` with leading and trailing whitespace characters removed. -/
def stripList (l : List Char) : List Char :=
  ((l.dropWhile pyWhitespace).reverse.dropWhile pyWhitespace).reverse

/-- Python `str.strip()`. -/
def strip (s : String) : String := ⟨stripList s.data⟩

/-- Python `str.lower()` (ASCII case folding, as used on domains here). -/
def lowerStr (s : String) : String := ⟨s.data.map Char.toLower⟩

/-- Python `s.split(",")`: splits on every comma, keeping empty pieces. -/
def splitCommaAux : List Char → List Char → List String
  | [], acc => [⟨acc.reverse⟩]
  | c :: cs, acc =>
    if c = ',' then ⟨acc.reverse⟩ :: splitCommaAux cs [] else splitCommaAux cs (c :: acc)

/-- Python `s.split(",")`. -/
def splitComma (s : String) : List String := splitCommaAux s.data []

/-- Python `s.endswith(pat)` (suffix test). -/
def strEndsWith (s pat : String) : Bool := decide (pat.data <:+ s.data)

/- ============================================================
   URL helpers (DropTheTrack.py lines 130-164)
   ============================================================ -/

/-- The character class `[^\s<>()]` of `URL_RE`. -/
def urlChar (c : Char) : Bool :=
  !(pyWhitespace c) && c != '<' && c != '>' && c != '(' && c != ')'

/-- The characters of the literal scheme `http://`. -/
def httpChars : List Char := ['h', 't', 't', 'p', ':', '/', '/']

/-- The characters of the literal scheme `https://`. -/
def httpsChars : List Char := ['h', 't', 't', 'p', 's', ':', '/', '/']

/-- Case-insensitive match of `https?://` at the head of `cs`; returns the
original scheme characters and the remainder.  The two alternatives are
mutually exclusive because of the `://` terminator. -/
def matchSchemeAt (cs : List Char) : Option (List Char × List Char) :=
  if (cs.take 8).map Char.toLower = httpsChars then some (cs.take 8, cs.drop 8)
  else if (cs.take 7).map Char.toLower = httpChars then some (cs.take 7, cs.drop 7)
  else none

/-- One attempt of `URL_RE` at the head of `cs`: scheme followed by a
nonempty maximal run of `urlChar` characters (the regex `+`). -/
def matchUrlAt (cs : List Char) : Option (List Char) :=
  match matchSchemeAt cs with
  | none => none
  | some (sch, rest) =>
    let body := rest.takeWhile urlChar
    if body = [] then none else some (sch ++ body)

/-- `re.search` semantics: the match at the leftmost position where the
whole pattern succeeds. -/
def findFirstUrl : List Char → Option (List Char)
  | [] => none
  | c :: cs =>
    match matchUrlAt (c :: cs) with
    | some u => some u
    | none => findFirstUrl cs

/-- `extract_first_url` (lines 133-139): `None` for empty text, otherwise
the first `URL_RE` match, `.strip()`ped. -/
def extract_first_url (text : String) : Option String :=
  if text.data = [] then none
  else (findFirstUrl text.data).map (fun u => strip ⟨u⟩)

/-- `domain_from_url` (lines 142-153): lowercase, strip a leading
`https?://`, then cut at the first `/`, `?`, `#`, `:`. -/
def domain_from_url (url : String) : String :=
  let u := lowerStr url
  let u : List Char :=
    if httpsChars.isPrefixOf u.data then u.data.drop 8
    else if httpChars.isPrefixOf u.data then u.data.drop 7
    else u.data
  let u := u.takeWhile (fun c => c != '/')
  let u := u.takeWhile (fun c => c != '?')
  let u := u.takeWhile (fun c => c != '#')
  ⟨u.takeWhile (fun c => c != ':')⟩

/-- The allow-list entries: split on commas, keep the parts whose strip is
nonempty, as stripped-and-lowercased strings (line 160-162). -/
def allowedEntries (csv : String) : List String :=
  ((splitComma csv).filter (fun x => strip x ≠ "")).map (fun x => lowerStr (strip x))

/-- `is_domain_allowed` (lines 156-164): the domain equals an entry or ends
with `"." ++ entry` ("Allow subdomains too"). -/
def is_domain_allowed (url csv : String) : Bool :=
  let d := domain_from_url url
  if d = "" then false
  else (allowedEntries csv).any (fun a => d == a || strEndsWith d ("." ++ a))

/- ============================================================
   Data model: the three sqlite tables (lines 25-77) and config
   ============================================================ -/

/-- One row of `drop_track_settings`.  Nullable text columns that the code
always reads through `str(x or "")` are modelled as `String` with `""` for
NULL. -/
structure Settings where
  guild_id : Nat
  channel_id : Option Nat
  ping_role_id : Option Nat
  duration_seconds : Int
  daily_enabled : Bool
  daily_hhmm_utc : String
  daily_random_date_utc : String
  webhook_url : String
  allow_domains : String
deriving DecidableEq, Repr

/-- One row of `drop_track_rounds`. -/
structure Round where
  round_id : Nat
  guild_id : Nat
  channel_id : Nat
  thread_id : Nat
  start_time : Nat
  end_time : Nat
  status : String
  prompt_text : String
  prompt_message_id : Option Nat
  winners_message_id : Option Nat
  winner_user_id : Option Nat
  winner_message_id : Option Nat
  winner_score : Nat
  created_at : Nat
deriving DecidableEq, Repr

/-- One row of `drop_track_submissions` (PRIMARY KEY (round_id, message_id)). -/
structure Sub where
  round_id : Nat
  guild_id : Nat
  thread_id : Nat
  message_id : Nat
  user_id : Nat
  submitted_at : Nat
  url : String
deriving DecidableEq, Repr

/-- The database: the three tables. -/
structure DB where
  settings : List Settings
  rounds : List Round
  submissions : List Sub
deriving DecidableEq, Repr

/-- The `features.drop_the_track` section of `config.yaml` (read-only). -/
structure Cfg where
  duration_seconds : Int
  allow_domains : String
  webhook_url : String
  channel_id : Option Nat
  ping_role_id : Option Nat
  daily_enabled : Bool
  prompt_text : String
deriving DecidableEq, Repr

/-- The hardcoded default allow-list (line 238-240). -/
def defaultAllowDomains : String :=
  "youtube.com,youtu.be,open.spotify.com,music.apple.com,soundcloud.com"

/- ============================================================
   Store helpers (DB helpers section, lines 263-412)
   ============================================================ -/

/-- `SELECT * FROM drop_track_settings WHERE guild_id = ?`. -/
def findSettings (db : DB) (g : Nat) : Option Settings :=
  db.settings.find? (fun s => s.guild_id == g)

/-- The defaults row inserted by `_get_settings` (lines 271-304):
`duration_seconds` is clamped with `max(30, default_dur)`. -/
def defaultSettingsRow (cfg : Cfg) (g : Nat) : Settings :=
  { guild_id := g
    channel_id := cfg.channel_id
    ping_role_id := cfg.ping_role_id
    duration_seconds := max 30 cfg.duration_seconds
    daily_enabled := cfg.daily_enabled
    daily_hhmm_utc := "08:00"
    daily_random_date_utc := ""
    webhook_url := strip cfg.webhook_url
    allow_domains := cfg.allow_domains }

/-- `_get_settings` (lines 263-309): returns the row, inserting the
defaults first when absent. -/
def getOrCreateSettings (cfg : Cfg) (db : DB) (g : Nat) : Settings × DB :=
  match findSettings db g with
  | some s => (s, db)
  | none =>
    let s := defaultSettingsRow cfg g
    (s, { db with settings := db.settings ++ [s] })

/-- `_update_settings` (lines 311-324), specialised to a field updater. -/
def updateSettingsRow (db : DB) (g : Nat) (f : Settings → Settings) : DB :=
  { db with settings := db.settings.map (fun s => if s.guild_id == g then f s else s) }

/-- `_resolve_webhook_url` (lines 417-429): DB value first, else the
config value (cached back into the DB), else `""`. -/
def resolveWebhookUrl (cfg : Cfg) (db : DB) (g : Nat) : String × DB :=
  let sdb := getOrCreateSettings cfg db g
  let dbUrl := strip sdb.1.webhook_url
  if dbUrl ≠ "" then (dbUrl, sdb.2)
  else
    let cfgUrl := strip cfg.webhook_url
    if cfgUrl ≠ "" then
      (cfgUrl, updateSettingsRow sdb.2 g (fun t => { t with webhook_url := cfgUrl }))
    else ("", sdb.2)

/-- `SELECT * FROM drop_track_rounds WHERE round_id = ?` (`_fetch_round`). -/
def lookupRound (db : DB) (rid : Nat) : Option Round :=
  db.rounds.find? (fun r => r.round_id == rid)

/-- `UPDATE drop_track_rounds ... WHERE round_id = ?`. -/
def updateRound (db : DB) (rid : Nat) (f : Round → Round) : DB :=
  { db with rounds := db.rounds.map (fun r => if r.round_id == rid then f r else r) }

/-- sqlite AUTOINCREMENT: one more than the largest existing round id. -/
def nextRoundId (db : DB) : Nat :=
  (db.rounds.foldl (fun m r => max m r.round_id) 0) + 1

/-- `_get_running_round` (lines 326-343): running round with the soonest
end time (ORDER BY end_time ASC LIMIT 1; first minimum kept on ties). -/
def getRunningRound (db : DB) (g : Nat) : Option Round :=
  (db.rounds.filter (fun r => r.guild_id == g && r.status == "running")).foldl
    (fun acc r =>
      match acc with
      | none => some r
      | some b => if r.end_time < b.end_time then some r else acc) none

/-- `_round_already_started_today` (lines 345-356): any round of the guild
whose creation timestamp falls on the given UTC day.  `dayOf` abstracts
sqlite's `DATE(datetime(created_at, 'unixepoch'))`. -/
def roundStartedToday (dayOf : Nat → String) (db : DB) (g : Nat) (today : String) : Bool :=
  db.rounds.any (fun r => r.guild_id == g && dayOf r.created_at == today)

/-- `SELECT 1 FROM drop_track_submissions WHERE round_id = ? AND user_id = ?`. -/
def hasUserSubmitted (db : DB) (rid uid : Nat) : Bool :=
  db.submissions.any (fun s => s.round_id == rid && s.user_id == uid)

/-- Whether the composite key (round_id, message_id) is already present. -/
def submissionKeyPresent (db : DB) (rid mid : Nat) : Bool :=
  db.submissions.any (fun s => s.round_id == rid && s.message_id == mid)

/-- `INSERT OR IGNORE INTO drop_track_submissions` (`_store_submission`,
lines 379-398): a duplicate (round_id, message_id) key is absorbed. -/
def insertSubmissionIfAbsent (db : DB) (s : Sub) : DB :=
  if submissionKeyPresent db s.round_id s.message_id then db
  else { db with submissions := db.submissions ++ [s] }

/-- Stable insertion into a list sorted by `submitted_at` ascending. -/
def insertBySubmittedAt (s : Sub) : List Sub → List Sub
  | [] => [s]
  | t :: ts =>
    if s.submitted_at ≤ t.submitted_at then s :: t :: ts else t :: insertBySubmittedAt s ts

/-- Stable sort by `submitted_at` ascending, modelling `ORDER BY
submitted_at ASC`. -/
def sortSubs (l : List Sub) : List Sub := l.foldr insertBySubmittedAt []

/-- `_get_submissions` (lines 407-412): the round's submissions ordered by
submission time ascending. -/
def roundSubmissions (db : DB) (rid : Nat) : List Sub :=
  sortSubs (db.submissions.filter (fun s => s.round_id == rid))

/- ============================================================
   Clock helpers (lines 94-113)
   ============================================================ -/

def digitVal (c : Char) : Nat := c.toNat - '0'.toNat

/-- `parse_hhmm` (lines 98-107): strip, fullmatch `(\d{1,2}):(\d{2})`,
bounds-check hours and minutes. -/
def parse_hhmm (s : String) : Option (Nat × Nat) :=
  match (strip s).data with
  | [a, b, c, d] =>
    if a.isDigit && b == ':' && c.isDigit && d.isDigit then
      let hh := digitVal a
      let mm := 10 * digitVal c + digitVal d
      if hh ≤ 23 && mm ≤ 59 then some (hh, mm) else none
    else none
  | [a, b, x, c, d] =>
    if a.isDigit && b.isDigit && x == ':' && c.isDigit && d.isDigit then
      let hh := 10 * digitVal a + digitVal b
      let mm := 10 * digitVal c + digitVal d
      if hh ≤ 23 && mm ≤ 59 then some (hh, mm) else none
    else none
  | _ => none

/-- `_get_today_daily_hhmm` (lines 364-377): re-draws and persists the
random daily time (`rand` models `random_daily_hhmm_utc()`) unless a valid
time is already cached for today.  `s` is the caller's settings snapshot. -/
def getTodayDailyHHMM (rand today : String) (s : Settings) (db : DB) : String × DB :=
  if strip s.daily_random_date_utc ≠ today ∨ parse_hhmm (strip s.daily_hhmm_utc) = none
  then
    (rand, updateSettingsRow db s.guild_id
      (fun t => { t with daily_hhmm_utc := rand, daily_random_date_utc := today }))
  else (strip s.daily_hhmm_utc, db)

/- ============================================================
   Round lifecycle engine (lines 469-771)
   ============================================================ -/

/-- A reaction on a fetched message (emoji rendered as `str`, count). -/
structure Reaction where
  emoji : String
  count : Nat
deriving DecidableEq, Repr

/-- A message as re-fetched from the thread at end time. -/
structure FetchedMsg where
  reactions : List Reaction
deriving DecidableEq, Repr

/-- The scoring scan (lines 627-634): the count of the first reaction
whose emoji is the voting marker, else 0. -/
def fireScore (msg : FetchedMsg) : Nat :=
  match msg.reactions.find? (fun r => r.emoji == "🔥") with
  | some r => r.count
  | none => 0

/-- The `best` accumulator of `_end_round` (lines 607-612): score starts
at -1 so any eligible submission (score ≥ 0) replaces the initial state. -/
structure BestState where
  user_id : Nat
  message_id : Nat
  score : Int
  url? : Option String
deriving DecidableEq, Repr

def initBest : BestState := ⟨0, 0, -1, none⟩

/-- One iteration of the winner loop (lines 616-638): skip unfetchable
messages, skip URLs no longer allow-listed, replace the incumbent only on
a strictly greater score. -/
def endRoundStep (fetch : Nat → Option FetchedMsg) (allow : String)
    (best : BestState) (s : Sub) : BestState :=
  match fetch s.message_id with
  | none => best
  | some msg =>
    if is_domain_allowed s.url allow then
      let score : Int := (fireScore msg : Nat)
      if best.score < score then ⟨s.user_id, s.message_id, score, some s.url⟩ else best
    else best

/-- The whole winner loop over the submissions in list order. -/
def endRoundFold (fetch : Nat → Option FetchedMsg) (allow : String)
    (subs : List Sub) : BestState :=
  subs.foldl (endRoundStep fetch allow) initBest

/-- A submission together with its score, when eligible (fetchable and
still allow-listed); `none` otherwise. -/
def eligScore (fetch : Nat → Option FetchedMsg) (allow : String) (s : Sub) :
    Option (Sub × Nat) :=
  match fetch s.message_id with
  | none => none
  | some msg => if is_domain_allowed s.url allow then some (s, fireScore msg) else none

/-- The eligible submissions of a round, in list order, with scores. -/
def eligible (fetch : Nat → Option FetchedMsg) (allow : String)
    (subs : List Sub) : List (Sub × Nat) :=
  subs.filterMap (eligScore fetch allow)

/-- The winner fields persisted by the ended-commit (lines 650-654):
`best["score"] >= 0` decides between the winner and the null/0 triple. -/
def winnerFields (b : BestState) : Option Nat × Option Nat × Nat :=
  if 0 ≤ b.score then (some b.user_id, some b.message_id, b.score.toNat)
  else (none, none, 0)

/-- The announcement text (lines 661-664). -/
def announcementContent (b : BestState) : String :=
  if 0 ≤ b.score ∧ b.user_id ≠ 0 ∧ b.url?.isSome then
    "🔥 **Top Track Drop** by <@" ++ toString b.user_id ++ "> with **" ++
      toString b.score.toNat ++ "** 🔥\n" ++ b.url?.getD ""
  else "No valid submissions this round. Try again tomorrow 🎵"

/-- Externally observable steps of `_end_round`, in program order. -/
inductive Event where
  | commitEnded (rid : Nat) (winner_user winner_msg : Option Nat) (winner_score : Nat)
  | sendAnnouncement (content : String)
  | sendClosing (content : String)
  | commitWinnersMsg (rid : Nat) (mid : Option Nat)
  | scheduleLockArchive (thread_id : Nat)
deriving DecidableEq, Repr

/-- Whether an event is a webhook message send. -/
def isSend : Event → Bool
  | .sendAnnouncement _ => true
  | .sendClosing _ => true
  | _ => false

/-- Platform environment for `_end_round`: resolvability of guild,
channel and thread, message fetch results, and the announcement send
result (message id, or `none` on a failed send). -/
structure EndEnv where
  guildOk : Bool
  channelOk : Bool
  threadOk : Bool
  fetch : Nat → Option FetchedMsg
  annMsgId : Option Nat

/-- The allow-list the engine validates against (lines 594 and 750): the
settings row's value, or the hardcoded default when that is empty/NULL. -/
def allowOf (cfg : Cfg) (db : DB) (g : Nat) : String :=
  if (getOrCreateSettings cfg db g).1.allow_domains = "" then defaultAllowDomains
  else (getOrCreateSettings cfg db g).1.allow_domains

/-- The row update of the ended-commit (lines 641-657). -/
def commitEndedUpd (wf : Option Nat × Option Nat × Nat) (r : Round) : Round :=
  { r with status := "ended", winner_user_id := wf.1,
           winner_message_id := wf.2.1, winner_score := wf.2.2 }

/-- The row update of the winners-message commit (lines 686-690). -/
def commitWinnersUpd (mid : Option Nat) (r : Round) : Round :=
  { r with winners_message_id := mid }

/-- `_end_round` (lines 555-693), invoked as in the source with a freshly
fetched row for `rid`.  Early returns leave the DB unchanged and emit no
event; a completed run commits the ended status plus winner fields, then
attempts the two sends, then commits the winners-message id, then
schedules the deferred lock/archive. -/
def end_round (cfg : Cfg) (env : EndEnv) (db : DB) (rid : Nat) : DB × List Event :=
  match lookupRound db rid with
  | none => (db, [])
  | some round =>
    if round.status ≠ "running" then (db, [])
    else if env.guildOk = false then (db, [])
    else if env.channelOk = false then (db, [])
    else if env.threadOk = false then (db, [])
    else
      let wdb := resolveWebhookUrl cfg (getOrCreateSettings cfg db round.guild_id).2
        round.guild_id
      if wdb.1 = "" then (wdb.2, [])
      else
        let best := endRoundFold env.fetch (allowOf cfg db round.guild_id)
          (roundSubmissions wdb.2 rid)
        let wf := winnerFields best
        (updateRound (updateRound wdb.2 rid (commitEndedUpd wf)) rid
           (commitWinnersUpd env.annMsgId),
         [Event.commitEnded rid wf.1 wf.2.1 wf.2.2,
          Event.sendAnnouncement (announcementContent best),
          Event.sendClosing "Thanks for dropping! See you tomorrow 🎵",
          Event.commitWinnersMsg rid env.annMsgId,
          Event.scheduleLockArchive round.thread_id])

/-- Platform environment for `_start_round`: thread-creation result and
prompt-post result. -/
structure StartEnv where
  threadId : Option Nat
  promptMsgId : Option Nat
deriving DecidableEq, Repr

/-- The hardcoded default prompt (line 192). -/
def defaultPrompt : String := "🎵 **What’s stuck in your head?**"

/-- The stored prompt text (line 509): `(prompt_text or default).strip()`
— an empty or missing override falls back to the default prompt. -/
def promptOf (promptText : Option String) : String :=
  strip (match promptText with
    | some p => if p = "" then defaultPrompt else p
    | none => defaultPrompt)

/-- `_start_round` (lines 469-553): fail (returning `none`, persisting no
round) when no webhook URL resolves or thread creation fails; a failed
prompt post does not abort — the round row is inserted with a null
`prompt_message_id` and status `running`. -/
def start_round (cfg : Cfg) (env : StartEnv) (db : DB) (guild channel : Nat)
    (promptText : Option String) (durationSeconds : Int) (_pingRole : Option Nat)
    (now : Nat) : Option Nat × DB :=
  let wdb := resolveWebhookUrl cfg db guild
  if wdb.1 = "" then (none, wdb.2)
  else
    match env.threadId with
    | none => (none, wdb.2)
    | some tid =>
      let endTs := now + (max 30 durationSeconds).toNat
      let prompt := promptOf promptText
      let rid := nextRoundId wdb.2
      let r : Round :=
        { round_id := rid, guild_id := guild, channel_id := channel, thread_id := tid,
          start_time := now, end_time := endTs, status := "running",
          prompt_text := prompt, prompt_message_id := env.promptMsgId,
          winners_message_id := none, winner_user_id := none,
          winner_message_id := none, winner_score := 0, created_at := now }
      (some rid, { wdb.2 with rounds := wdb.2.rounds ++ [r] })

/- ============================================================
   Submission intake (`on_message`, lines 719-771)
   ============================================================ -/

/-- The fields of an inbound platform message that `on_message` reads. -/
structure InMsg where
  id : Nat
  author_id : Nat
  author_bot : Bool
  guild_id : Option Nat
  in_thread : Bool
  channel_id : Nat
  content : String
deriving DecidableEq, Repr

/-- Externally observable effect of the intake path. -/
inductive MsgEffect where
  | addReaction (message_id : Nat) (emoji : String)
deriving DecidableEq, Repr

/-- The running round for this thread (lines 732-741): `WHERE guild_id = ?
AND thread_id = ? AND status = 'running' ORDER BY end_time DESC LIMIT 1`
(first maximum kept on ties). -/
def pickLatestRunning (rounds : List Round) (g tid : Nat) : Option Round :=
  (rounds.filter (fun r =>
      r.guild_id == g && r.thread_id == tid && r.status == "running")).foldl
    (fun acc r =>
      match acc with
      | none => some r
      | some b => if b.end_time < r.end_time then some r else acc) none

/-- `on_message` (lines 719-771): guards, then URL extraction and
validation, the one-submission-per-user rule, the idempotent insert, and
the voting-marker reaction request. -/
def on_message (cfg : Cfg) (msg : InMsg) (now : Nat) (db : DB) : DB × List MsgEffect :=
  if msg.author_bot then (db, [])
  else
    match msg.guild_id with
    | none => (db, [])
    | some g =>
      if msg.in_thread = false then (db, [])
      else
        match pickLatestRunning db.rounds g msg.channel_id with
        | none => (db, [])
        | some round =>
          if round.end_time ≤ now then (db, [])
          else
            match extract_first_url msg.content with
            | none => ((getOrCreateSettings cfg db g).2, [])
            | some url =>
              if is_domain_allowed url (allowOf cfg db g) = false
              then ((getOrCreateSettings cfg db g).2, [])
              else if hasUserSubmitted (getOrCreateSettings cfg db g).2 round.round_id
                msg.author_id
              then ((getOrCreateSettings cfg db g).2, [])
              else
                (insertSubmissionIfAbsent (getOrCreateSettings cfg db g).2
                   { round_id := round.round_id, guild_id := round.guild_id,
                     thread_id := round.thread_id, message_id := msg.id,
                     user_id := msg.author_id, submitted_at := now, url := url },
                 [MsgEffect.addReaction msg.id "🔥"])

/- ============================================================
   Scheduler tick (`_tick_loop`, lines 776-858)
   ============================================================ -/

/-- A tick instant: the unix timestamp, UTC calendar day label, and the
`HH:MM` time-of-day label derived from the same wall clock. -/
structure TickTime where
  unix : Nat
  day : String
  hhmm : String
deriving DecidableEq, Repr

/-- Per-guild platform environment of one tick. -/
structure GuildTickEnv where
  rand : String
  guildResolved : Bool
  channelResolved : Bool
  startEnv : StartEnv
  endEnvOf : Nat → EndEnv

/-- The round ids selected by `SELECT * FROM drop_track_rounds WHERE
status = 'running' AND end_time <= ?` (lines 779-784). -/
def overdueRounds (db : DB) (now : Nat) : List Nat :=
  ((db.rounds.filter (fun r => r.status == "running" && decide (r.end_time ≤ now))).map
    (fun r => r.round_id))

/-- The overdue-ending half of a tick (lines 778-791): `_end_round` on
each overdue round, failures contained per round. -/
def endOverdue (cfg : Cfg) (env : GuildTickEnv) (now : Nat) (db : DB) : DB :=
  (overdueRounds db now).foldl (fun d rid => (end_round cfg (env.endEnvOf rid) d rid).1) db

/-- The daily-start half of a tick for one guild (lines 800-854): only for
settings rows with `daily_enabled = 1 AND channel_id IS NOT NULL`; ensure
today's random time, then skip unless the schedule equals this minute, no
round is running, no round was created today, and guild and channel
resolve; then `_start_round`. -/
def dailyStartPhase (dayOf : Nat → String) (cfg : Cfg) (env : GuildTickEnv)
    (t : TickTime) (g : Nat) (db : DB) : DB :=
  match findSettings db g with
  | none => db
  | some s =>
    if s.daily_enabled = false then db
    else
      match s.channel_id with
      | none => db
      | some chanId =>
        if (getTodayDailyHHMM env.rand t.day s db).1 ≠ t.hhmm then
          (getTodayDailyHHMM env.rand t.day s db).2
        else if (getRunningRound (getTodayDailyHHMM env.rand t.day s db).2 g).isSome
        then (getTodayDailyHHMM env.rand t.day s db).2
        else if roundStartedToday dayOf (getTodayDailyHHMM env.rand t.day s db).2 g
          t.day
        then (getTodayDailyHHMM env.rand t.day s db).2
        else if env.guildResolved = false then (getTodayDailyHHMM env.rand t.day s db).2
        else if env.channelResolved = false then
          (getTodayDailyHHMM env.rand t.day s db).2
        else
          (start_round cfg env.startEnv (getTodayDailyHHMM env.rand t.day s db).2 g
            chanId (some cfg.prompt_text)
            (if s.duration_seconds = 0 then cfg.duration_seconds
             else s.duration_seconds)
            (match s.ping_role_id with
              | some r => if r = 0 then none else some r
              | none => none) t.unix).2

/-- One scheduler tick restricted to guild `g`: end overdue rounds, then
run the daily-start check. -/
def tickForGuild (dayOf : Nat → String) (cfg : Cfg) (env : GuildTickEnv)
    (t : TickTime) (g : Nat) (db : DB) : DB :=
  dailyStartPhase dayOf cfg env t g (endOverdue cfg env t.unix db)

/-- Rounds of guild `g` created on calendar day `d`. -/
def countRoundsToday (dayOf : Nat → String) (db : DB) (g : Nat) (d : String) : Nat :=
  db.rounds.countP (fun r => r.guild_id == g && dayOf r.created_at == d)

/- ============================================================
   Settings mutations (`/drop_config`, lines 919-948) and the
   duration invariant
   ============================================================ -/

/-- The field updates assembled by `drop_config` (lines 921-941): a given
duration is clamped as `max(30, max(1, minutes) * 60)`; a blank allow-list
argument resets to the default. -/
def dropConfigUpdates (channel pingRole : Option Nat) (durationMinutes : Option Int)
    (dailyEnabled : Option Bool) (allowCsv : Option String) (s : Settings) : Settings :=
  let s := match channel with
    | some c => { s with channel_id := some c }
    | none => s
  let s := match pingRole with
    | some r => { s with ping_role_id := some r }
    | none => s
  let s := match durationMinutes with
    | some m => { s with duration_seconds := max 30 (max 1 m * 60) }
    | none => s
  let s := match dailyEnabled with
    | some b => { s with daily_enabled := b }
    | none => s
  match allowCsv with
  | some csv =>
    { s with allow_domains := if strip csv = "" then defaultAllowDomains else strip csv }
  | none => s

/-- Every code path that writes to `drop_track_settings`: the defaults
insertion of `_get_settings`, the `/drop_config` update (which first
ensures the row, then applies the updates, then refreshes today's
schedule), the schedule refresh of `_get_today_daily_hhmm`, and the
config-URL caching of `_resolve_webhook_url`. -/
inductive SettingsOp where
  | getOrCreate (cfg : Cfg)
  | dropConfig (cfg : Cfg) (channel pingRole : Option Nat) (durationMinutes : Option Int)
      (dailyEnabled : Option Bool) (allowCsv : Option String) (rand today : String)
  | ensureDailySchedule (rand today : String)
  | cacheWebhookUrl (cfg : Cfg)

/-- Applying one settings-writing operation for guild `g`. -/
def applySettingsOp (g : Nat) (op : SettingsOp) (db : DB) : DB :=
  match op with
  | .getOrCreate cfg => (getOrCreateSettings cfg db g).2
  | .dropConfig cfg ch pr dm de ac rand today =>
    match findSettings (updateSettingsRow (getOrCreateSettings cfg db g).2 g
        (dropConfigUpdates ch pr dm de ac)) g with
    | some s =>
      (getTodayDailyHHMM rand today s (updateSettingsRow
        (getOrCreateSettings cfg db g).2 g (dropConfigUpdates ch pr dm de ac))).2
    | none =>
      updateSettingsRow (getOrCreateSettings cfg db g).2 g
        (dropConfigUpdates ch pr dm de ac)
  | .ensureDailySchedule rand today =>
    match findSettings db g with
    | some s => (getTodayDailyHHMM rand today s db).2
    | none => db
  | .cacheWebhookUrl cfg => (resolveWebhookUrl cfg db g).2

/-- The invariant of claim C9: every settings row stores a round duration
of at least 30 seconds. -/
def durationInvariant (db : DB) : Prop :=
  ∀ s ∈ db.settings, 30 ≤ s.duration_seconds

/- ============================================================
   Derived forms used to state the claims
   ============================================================ -/

/-- First maximum of a nonempty list of scored submissions: the incumbent
is replaced only by a strictly greater score. -/
def firstMaxAux (cur : Sub × Nat) : List (Sub × Nat) → Sub × Nat
  | [] => cur
  | p :: l => if cur.2 < p.2 then firstMaxAux p l else firstMaxAux cur l

/-- The `BestState` corresponding to an eligible scored submission. -/
def toBest (p : Sub × Nat) : BestState :=
  ⟨p.1.user_id, p.1.message_id, (p.2 : Int), some p.1.url⟩

/-- The winner-loop step restricted to the eligible list. -/
def eligStep (best : BestState) (p : Sub × Nat) : BestState :=
  if best.score < (p.2 : Int) then toBest p else best

/-- Spec-side (claim C3): a list of characters that reads as `http://` or
`https://` up to ASCII case. -/
def SchemeOk (sch : List Char) : Prop :=
  sch.map Char.toLower = httpChars ∨ sch.map Char.toLower = httpsChars

/-- Spec-side (claim C3): `u` is a maximal URL substring at the head of
`cs` — a case-insensitive scheme followed by a nonempty run of characters
that are neither whitespace nor brackets, not extendable to the right. -/
def UrlMatchAt (cs u : List Char) : Prop :=
  ∃ sch body rest, SchemeOk sch ∧ body ≠ [] ∧ (∀ c ∈ body, urlChar c = true) ∧
    (∀ c rest2, rest = c :: rest2 → urlChar c = false) ∧
    u = sch ++ body ∧ cs = sch ++ body ++ rest

/-- Spec-side (claim C3): `u` is the first maximal URL substring of the
text — it matches at some position before which no position matches. -/
def FirstUrl (cs u : List Char) : Prop :=
  ∃ i, UrlMatchAt (cs.drop i) u ∧ ∀ j < i, ∀ v, ¬ UrlMatchAt (cs.drop j) v

/- ============================================================
   Concrete fixtures used by the witness theorems
   ============================================================ -/

def wCfg : Cfg :=
  { duration_seconds := 600, allow_domains := defaultAllowDomains,
    webhook_url := "https://discord.com/api/webhooks/1/t",
    channel_id := some 10, ping_role_id := none, daily_enabled := true,
    prompt_text := "🎵 prompt" }

def wRound : Round :=
  { round_id := 1, guild_id := 1, channel_id := 10, thread_id := 20,
    start_time := 0, end_time := 600, status := "running", prompt_text := "p",
    prompt_message_id := none, winners_message_id := none, winner_user_id := none,
    winner_message_id := none, winner_score := 0, created_at := 0 }

def wSub1 : Sub :=
  { round_id := 1, guild_id := 1, thread_id := 20, message_id := 101, user_id := 7,
    submitted_at := 10, url := "https://youtu.be/a" }

def wSub2 : Sub :=
  { round_id := 1, guild_id := 1, thread_id := 20, message_id := 102, user_id := 8,
    submitted_at := 20, url := "https://youtu.be/b" }

def wSettings : Settings :=
  { guild_id := 1, channel_id := some 10, ping_role_id := none,
    duration_seconds := 600, daily_enabled := true, daily_hhmm_utc := "14:32",
    daily_random_date_utc := "2026-10-12",
    webhook_url := "https://discord.com/api/webhooks/1/t",
    allow_domains := defaultAllowDomains }

def wDb : DB :=
  { settings := [wSettings], rounds := [wRound], submissions := [wSub1, wSub2] }

def wFetch : Nat → Option FetchedMsg :=
  fun mid => if mid = 101 || mid = 102 then some ⟨[⟨"🔥", 3⟩]⟩ else none

def wEndEnv : EndEnv :=
  { guildOk := true, channelOk := true, threadOk := true, fetch := wFetch,
    annMsgId := some 555 }

def wStartEnv : StartEnv := { threadId := some 20, promptMsgId := none }

def wMsg : InMsg :=
  { id := 101, author_id := 7, author_bot := false, guild_id := some 1,
    in_thread := true, channel_id := 20,
    content := "check this out https://youtu.be/abc123 nice" }

def wDbNoSubs : DB := { settings := [wSettings], rounds := [wRound], submissions := [] }

def wTickTime : TickTime := { unix := 100, day := "2026-10-12", hhmm := "14:32" }

def wTickEnv : GuildTickEnv :=
  { rand := "14:32", guildResolved := true, channelResolved := true,
    startEnv := wStartEnv, endEnvOf := fun _ => wEndEnv }

def wDbRoundless : DB := { settings := [wSettings], rounds := [], submissions := [] }

def wDayOf : Nat → String := fun _ => "2026-10-12"

/- ============================================================
   Helper lemmas
   ============================================================ -/

/-- Appending strings appends their character lists. -/
theorem strData_append (s t : String) : (s ++ t).data = s.data ++ t.data := rfl

/-- Strings with equal character lists are equal. -/
theorem strDataExt {s t : String} (h : s.data = t.data) : s = t := by
  cases s
  cases t
  exact congrArg String.mk h

/-- Python `endswith` is exactly the existence of a left remainder. -/
theorem strEndsWith_iff (s pat : String) :
    strEndsWith s pat = true ↔ ∃ p : String, s = p ++ pat := by
  unfold strEndsWith
  rw [decide_eq_true_iff]
  constructor
  · rintro ⟨t, ht⟩
    exact ⟨⟨t⟩, strDataExt (by simpa [strData_append] using ht.symm)⟩
  · rintro ⟨p, rfl⟩
    exact ⟨p.data, by simp [strData_append]⟩

/-- A list all of whose elements fail `p` is untouched by `dropWhile`. -/
theorem dropWhile_eq_self_of_false {p : Char → Bool} {l : List Char}
    (h : ∀ c ∈ l, p c = false) : l.dropWhile p = l := by
  cases l with
  | nil => rfl
  | cons a t =>
    exact List.dropWhile_cons_of_neg (by simp [h a (List.mem_cons_self a t)])

/-- Stripping a string with no whitespace characters is the identity. -/
theorem stripList_eq_self {l : List Char} (h : ∀ c ∈ l, pyWhitespace c = false) :
    stripList l = l := by
  unfold stripList
  rw [dropWhile_eq_self_of_false h,
    dropWhile_eq_self_of_false (fun c hc => h c (List.mem_reverse.mp hc)),
    List.reverse_reverse]

/-- Whitespace characters are fixed by ASCII lowercasing. -/
theorem ws_toLower {c : Char} (h : pyWhitespace c = true) : c.toLower = c := by
  simp only [pyWhitespace, Bool.or_eq_true, beq_iff_eq] at h
  rcases h with ((((h | h) | h) | h) | h) | h <;> subst h <;> decide

/-- Scheme characters are never whitespace. -/
theorem schemeOk_not_ws {sch : List Char} (h : SchemeOk sch) :
    ∀ c ∈ sch, pyWhitespace c = false := by
  intro c hc
  by_contra hws
  rw [Bool.not_eq_false] at hws
  have hmem : c.toLower ∈ sch.map Char.toLower := List.mem_map_of_mem Char.toLower hc
  rw [ws_toLower hws] at hmem
  rcases h with h | h <;> rw [h] at hmem <;>
    simp only [pyWhitespace, Bool.or_eq_true, beq_iff_eq] at hws <;>
    rcases hws with ((((h2 | h2) | h2) | h2) | h2) | h2 <;> subst h2 <;>
    simp [httpChars, httpsChars] at hmem

/-- URL-body characters are never whitespace. -/
theorem urlChar_not_ws {c : Char} (h : urlChar c = true) : pyWhitespace c = false := by
  unfold urlChar at h
  simp only [Bool.and_eq_true, Bool.not_eq_true'] at h
  exact h.1.1.1.1

/-- The head of what `dropWhile` leaves fails the predicate. -/
theorem dropWhile_head_false {p : Char → Bool} :
    ∀ (l : List Char) {c rest2}, l.dropWhile p = c :: rest2 → p c = false := by
  intro l
  induction l with
  | nil => intro c rest2 h; simp at h
  | cons a t ih =>
    intro c rest2 h
    rw [List.dropWhile_cons] at h
    split at h
    · exact ih h
    · rename_i hpa
      obtain ⟨rfl, -⟩ := List.cons.inj h
      simpa using hpa

/-- `takeWhile` over a run of good characters followed by a bad head. -/
theorem takeWhile_all_append {p : Char → Bool} :
    ∀ (body rest : List Char), (∀ c ∈ body, p c = true) →
      (∀ c rest2, rest = c :: rest2 → p c = false) →
      (body ++ rest).takeWhile p = body := by
  intro body
  induction body with
  | nil =>
    intro rest _ hr
    cases rest with
    | nil => rfl
    | cons c t => simp [List.takeWhile_cons, hr c t rfl]
  | cons b bs ih =>
    intro rest hb hr
    have hpb : p b = true := hb b (List.mem_cons_self b bs)
    simp only [List.cons_append, List.takeWhile_cons, hpb, if_true]
    rw [ih rest (fun c hc => hb c (List.mem_cons_of_mem b hc)) hr]

/-- `matchSchemeAt` is deterministic: it finds any scheme sitting at the
head of the input (the `http://` and `https://` alternatives are mutually
exclusive). -/
theorem matchSchemeAt_det (sch X : List Char) (h : SchemeOk sch) :
    matchSchemeAt (sch ++ X) = some (sch, X) := by
  rcases h with h | h
  · have hlen : sch.length = 7 := by
      have h2 := congrArg List.length h
      simpa using h2
    have htake7 : (sch ++ X).take 7 = sch := by rw [← hlen]; exact List.take_left ..
    have hdrop7 : (sch ++ X).drop 7 = X := by rw [← hlen]; exact List.drop_left ..
    have hcond7 : ((sch ++ X).take 7).map Char.toLower = httpChars := by
      rw [htake7]; exact h
    have hcond8 : ¬ (((sch ++ X).take 8).map Char.toLower = httpsChars) := by
      intro h8
      have e8 : ((sch ++ X).map Char.toLower).take 8 = httpsChars := by
        rw [← List.map_take]; exact h8
      have e7 : ((sch ++ X).map Char.toLower).take 7 = httpChars := by
        rw [← List.map_take, htake7]; exact h
      have e78 : httpsChars.take 7 = httpChars := by
        rw [← e8, List.take_take, Nat.min_def]
        simpa using e7
      exact absurd e78 (by decide)
    unfold matchSchemeAt
    rw [if_neg hcond8, if_pos hcond7, htake7, hdrop7]
  · have hlen : sch.length = 8 := by
      have h2 := congrArg List.length h
      simpa using h2
    have htake8 : (sch ++ X).take 8 = sch := by rw [← hlen]; exact List.take_left ..
    have hdrop8 : (sch ++ X).drop 8 = X := by rw [← hlen]; exact List.drop_left ..
    unfold matchSchemeAt
    rw [if_pos (by rw [htake8]; exact h), htake8, hdrop8]

/-- Soundness of `matchSchemeAt`: a match is a scheme plus remainder. -/
theorem matchSchemeAt_some {cs sch rest : List Char}
    (h : matchSchemeAt cs = some (sch, rest)) : SchemeOk sch ∧ cs = sch ++ rest := by
  unfold matchSchemeAt at h
  split at h
  · rename_i hc
    obtain ⟨h1, h2⟩ := Prod.mk.inj (Option.some.inj h)
    subst h1; subst h2
    exact ⟨Or.inr hc, (List.take_append_drop ..).symm⟩
  · split at h
    · rename_i hc
      obtain ⟨h1, h2⟩ := Prod.mk.inj (Option.some.inj h)
      subst h1; subst h2
      exact ⟨Or.inl hc, (List.take_append_drop ..).symm⟩
    · exact absurd h (by simp)

/-- Unfolding of `matchUrlAt` when the scheme matches. -/
theorem matchUrlAt_eq {cs sch rest : List Char}
    (hm : matchSchemeAt cs = some (sch, rest)) :
    matchUrlAt cs =
      if rest.takeWhile urlChar = [] then none
      else some (sch ++ rest.takeWhile urlChar) := by
  unfold matchUrlAt
  rw [hm]

/-- Unfolding of `matchUrlAt` when no scheme matches. -/
theorem matchUrlAt_eq_none {cs : List Char} (hm : matchSchemeAt cs = none) :
    matchUrlAt cs = none := by
  unfold matchUrlAt
  rw [hm]

/-- Soundness of `matchUrlAt` against the spec-side match predicate. -/
theorem matchUrlAt_sound {cs u : List Char} (h : matchUrlAt cs = some u) :
    UrlMatchAt cs u := by
  rcases hm : matchSchemeAt cs with _ | ⟨sch, rest⟩
  · rw [matchUrlAt_eq_none hm] at h
    exact absurd h (by simp)
  · rw [matchUrlAt_eq hm] at h
    obtain ⟨hok, hcs⟩ := matchSchemeAt_some hm
    by_cases hne : rest.takeWhile urlChar = []
    · rw [if_pos hne] at h
      exact absurd h (by simp)
    · rw [if_neg hne] at h
      refine ⟨sch, rest.takeWhile urlChar, rest.dropWhile urlChar, hok, hne, ?_, ?_, ?_, ?_⟩
      · intro c hc; exact List.mem_takeWhile_imp hc
      · intro c rest2 hr; exact dropWhile_head_false rest hr
      · exact (Option.some.inj h).symm
      · rw [hcs, List.append_assoc, List.takeWhile_append_dropWhile urlChar rest]

/-- Completeness of `matchUrlAt`: any spec-side match is found. -/
theorem matchUrlAt_complete {cs u : List Char} (h : UrlMatchAt cs u) :
    matchUrlAt cs = some u := by
  obtain ⟨sch, body, rest, hok, hne, hbody, hrest, hu, hcs⟩ := h
  have hcs2 : cs = sch ++ (body ++ rest) := by rw [hcs, List.append_assoc]
  rw [hcs2]
  rw [matchUrlAt_eq (matchSchemeAt_det sch (body ++ rest) hok)]
  rw [takeWhile_all_append body rest hbody hrest, if_neg hne, hu]

/-- Soundness of the left-to-right scan: the match position is the first
where the pattern succeeds. -/
theorem findFirstUrl_sound {cs u : List Char} (h : findFirstUrl cs = some u) :
    ∃ i, matchUrlAt (cs.drop i) = some u ∧ ∀ j < i, matchUrlAt (cs.drop j) = none := by
  induction cs with
  | nil => simp [findFirstUrl] at h
  | cons c t ih =>
    rw [findFirstUrl] at h
    rcases hm : matchUrlAt (c :: t) with _ | v
    · rw [hm] at h
      obtain ⟨i, hi, hlt⟩ := ih h
      refine ⟨i + 1, by simpa using hi, ?_⟩
      intro j hj
      cases j with
      | zero => simpa using hm
      | succ k => simpa using hlt k (Nat.lt_of_succ_lt_succ hj)
    · rw [hm] at h
      exact ⟨0, by simpa using hm.trans h, fun j hj => absurd hj (Nat.not_lt_zero j)⟩

/-- A failed scan means no position matches. -/
theorem findFirstUrl_none {cs : List Char} (h : findFirstUrl cs = none) :
    ∀ i, matchUrlAt (cs.drop i) = none := by
  induction cs with
  | nil => intro i; rw [List.drop_nil]; rfl
  | cons c t ih =>
    rw [findFirstUrl] at h
    rcases hm : matchUrlAt (c :: t) with _ | v
    · rw [hm] at h
      intro i
      cases i with
      | zero => simpa using hm
      | succ k => simpa using ih h k
    · rw [hm] at h; exact absurd h (by simp)

/-- Every character of a `matchUrlAt` result is non-whitespace, so the
final `.strip()` of `extract_first_url` is the identity on it. -/
theorem matchUrlAt_not_ws {cs u : List Char} (h : matchUrlAt cs = some u) :
    ∀ c ∈ u, pyWhitespace c = false := by
  obtain ⟨sch, body, rest, hok, -, hbody, -, hu, -⟩ := matchUrlAt_sound h
  subst hu
  intro c hc
  rcases List.mem_append.mp hc with hc | hc
  · exact schemeOk_not_ws hok c hc
  · exact urlChar_not_ws (hbody c hc)

/-- Characterisation of `is_domain_allowed` (the general rule of claim
C2): the extracted domain is nonempty and equals, or is a dot-suffixed
extension of, some allow-list entry. -/
theorem is_domain_allowed_iff (url csv : String) :
    is_domain_allowed url csv = true ↔
      (domain_from_url url ≠ "" ∧ ∃ a ∈ allowedEntries csv,
        domain_from_url url = a ∨
          ∃ p : String, domain_from_url url = p ++ ("." ++ a)) := by
  unfold is_domain_allowed
  by_cases hd : domain_from_url url = ""
  · simp [hd]
  · simp [hd, List.any_eq_true, strEndsWith_iff]

/-- The winner loop over all submissions equals the same strict-replace
fold over just the eligible submissions. -/
theorem fold_eq_elig (fetch : Nat → Option FetchedMsg) (allow : String) :
    ∀ (subs : List Sub) (b : BestState),
      subs.foldl (endRoundStep fetch allow) b =
        (eligible fetch allow subs).foldl eligStep b := by
  intro subs
  induction subs with
  | nil => intro b; rfl
  | cons s t ih =>
    intro b
    rw [List.foldl_cons]
    unfold eligible
    rcases hf : fetch s.message_id with _ | msg
    · have hstep : endRoundStep fetch allow b s = b := by
        unfold endRoundStep; rw [hf]
      have hes : eligScore fetch allow s = none := by
        unfold eligScore; rw [hf]
      rw [hstep, List.filterMap_cons_none hes]
      exact ih b
    · by_cases hal : is_domain_allowed s.url allow = true
      · have hstep : endRoundStep fetch allow b s = eligStep b (s, fireScore msg) := by
          simp [endRoundStep, eligStep, toBest, hf, hal]
        have hes : eligScore fetch allow s = some (s, fireScore msg) := by
          simp [eligScore, hf, hal]
        rw [hstep, List.filterMap_cons_some hes, List.foldl_cons]
        exact ih (eligStep b (s, fireScore msg))
      · rw [Bool.not_eq_true] at hal
        have hstep : endRoundStep fetch allow b s = b := by
          simp [endRoundStep, hf, hal]
        have hes : eligScore fetch allow s = none := by
          simp [eligScore, hf, hal]
        rw [hstep, List.filterMap_cons_none hes]
        exact ih b

/-- Minus one is strictly below every natural score. -/
theorem negOne_lt_cast (n : Nat) : (-1 : Int) < (n : Int) := by omega

/-- The eligible-list fold from an eligible incumbent computes the first
maximum under strict replacement. -/
theorem foldl_eligStep_toBest :
    ∀ (l : List (Sub × Nat)) (cur : Sub × Nat),
      l.foldl eligStep (toBest cur) = toBest (firstMaxAux cur l) := by
  intro l
  induction l with
  | nil => intro cur; rfl
  | cons p t ih =>
    intro cur
    rw [List.foldl_cons]
    simp only [firstMaxAux]
    by_cases hlt : cur.2 < p.2
    · rw [if_pos hlt]
      have hstep : eligStep (toBest cur) p = toBest p := by
        simp [eligStep, toBest, Nat.cast_lt, hlt]
      rw [hstep, ih]
    · rw [if_neg hlt]
      have hstep : eligStep (toBest cur) p = toBest cur := by
        simp [eligStep, toBest, Nat.cast_lt, hlt]
      rw [hstep, ih]

/-- The winner accumulator when no submission is eligible. -/
theorem endRoundFold_of_elig_nil {fetch allow subs}
    (h : eligible fetch allow subs = []) :
    endRoundFold fetch allow subs = initBest := by
  unfold endRoundFold
  rw [fold_eq_elig, h]
  rfl

/-- The winner accumulator when some submission is eligible. -/
theorem endRoundFold_of_elig_cons {fetch allow subs x l}
    (h : eligible fetch allow subs = x :: l) :
    endRoundFold fetch allow subs = toBest (firstMaxAux x l) := by
  unfold endRoundFold
  rw [fold_eq_elig, h, List.foldl_cons]
  have hstep : eligStep initBest x = toBest x := by
    unfold eligStep
    exact if_pos (negOne_lt_cast x.2)
  rw [hstep, foldl_eligStep_toBest]

/-- The first maximum is one of the candidates. -/
theorem firstMaxAux_mem :
    ∀ (l : List (Sub × Nat)) (cur : Sub × Nat), firstMaxAux cur l ∈ cur :: l := by
  intro l
  induction l with
  | nil => intro cur; simp [firstMaxAux]
  | cons p t ih =>
    intro cur
    simp only [firstMaxAux]
    by_cases hlt : cur.2 < p.2
    · rw [if_pos hlt]
      rcases List.mem_cons.mp (ih p) with h | h
      · rw [h]
        exact List.mem_cons_of_mem cur (List.mem_cons_self p t)
      · exact List.mem_cons_of_mem cur (List.mem_cons_of_mem p h)
    · rw [if_neg hlt]
      rcases List.mem_cons.mp (ih cur) with h | h
      · rw [h]
        exact List.mem_cons_self cur (p :: t)
      · exact List.mem_cons_of_mem cur (List.mem_cons_of_mem p h)

/-- The first maximum dominates every candidate's score. -/
theorem firstMaxAux_max :
    ∀ (l : List (Sub × Nat)) (cur : Sub × Nat),
      ∀ q ∈ cur :: l, q.2 ≤ (firstMaxAux cur l).2 := by
  intro l
  induction l with
  | nil =>
    intro cur q hq
    rcases List.mem_cons.mp hq with h | h
    · rw [h]; exact Nat.le_refl _
    · simp at h
  | cons p t ih =>
    intro cur q hq
    simp only [firstMaxAux]
    by_cases hlt : cur.2 < p.2
    · rw [if_pos hlt]
      rcases List.mem_cons.mp hq with h | h
      · rw [h]
        exact Nat.le_of_lt (Nat.lt_of_lt_of_le hlt (ih p p (List.mem_cons_self p t)))
      · exact ih p q h
    · rw [if_neg hlt]
      rcases List.mem_cons.mp hq with h | h
      · rw [h]
        exact ih cur cur (List.mem_cons_self cur t)
      · rcases List.mem_cons.mp h with h2 | h2
        · rw [h2]
          exact Nat.le_trans (Nat.le_of_not_lt hlt) (ih cur cur (List.mem_cons_self cur t))
        · exact ih cur q (List.mem_cons_of_mem cur h2)

/-- Among candidates sorted by submission time, the first maximum is
submitted no later than any candidate with an equal score. -/
theorem firstMaxAux_first :
    ∀ (l : List (Sub × Nat)) (cur : Sub × Nat),
      List.Pairwise (fun a b : Sub × Nat => a.1.submitted_at ≤ b.1.submitted_at) (cur :: l) →
      ∀ q ∈ cur :: l, q.2 = (firstMaxAux cur l).2 →
        (firstMaxAux cur l).1.submitted_at ≤ q.1.submitted_at := by
  intro l
  induction l with
  | nil =>
    intro cur _ q hq _
    rcases List.mem_cons.mp hq with h | h
    · rw [h]
      simp [firstMaxAux]
    · simp at h
  | cons p t ih =>
    intro cur hpw q hq heq
    simp only [firstMaxAux] at heq ⊢
    by_cases hlt : cur.2 < p.2
    · rw [if_pos hlt] at heq ⊢
      rcases List.mem_cons.mp hq with h | h
      · have hle := firstMaxAux_max t p p (List.mem_cons_self p t)
        rw [h] at heq
        omega
      · exact ih p hpw.of_cons q h heq
    · rw [if_neg hlt] at heq ⊢
      obtain ⟨hcur, hpt⟩ := List.pairwise_cons.mp hpw
      obtain ⟨-, ht⟩ := List.pairwise_cons.mp hpt
      have hpw2 : List.Pairwise
          (fun a b : Sub × Nat => a.1.submitted_at ≤ b.1.submitted_at) (cur :: t) :=
        List.pairwise_cons.mpr ⟨fun y hy => hcur y (List.mem_cons_of_mem p hy), ht⟩
      rcases List.mem_cons.mp hq with h | h
      · have heq2 := heq
        rw [h] at heq2
        rw [h]
        exact ih cur hpw2 cur (List.mem_cons_self cur t) heq2
      · rcases List.mem_cons.mp h with h2 | h2
        · have hcurle := firstMaxAux_max t cur cur (List.mem_cons_self cur t)
          have hple : p.2 ≤ cur.2 := Nat.le_of_not_lt hlt
          have hcureq : cur.2 = (firstMaxAux cur t).2 := by
            rw [h2] at heq
            omega
          have h1 := ih cur hpw2 cur (List.mem_cons_self cur t) hcureq
          rw [h2]
          exact Nat.le_trans h1 (hcur p (List.mem_cons_self p t))
        · exact ih cur hpw2 q (List.mem_cons_of_mem cur h2) heq

/-- Membership in an insertion-sort insert. -/
theorem mem_insertBy (s : Sub) :
    ∀ (l : List Sub) (a : Sub), a ∈ insertBySubmittedAt s l ↔ a = s ∨ a ∈ l := by
  intro l
  induction l with
  | nil => intro a; simp [insertBySubmittedAt]
  | cons t ts ih =>
    intro a
    simp only [insertBySubmittedAt]
    by_cases h : s.submitted_at ≤ t.submitted_at
    · rw [if_pos h]
      simp [List.mem_cons]
    · rw [if_neg h]
      simp only [List.mem_cons, ih]
      tauto

/-- Insertion preserves sortedness by submission time. -/
theorem pairwise_insertBy (s : Sub) :
    ∀ (l : List Sub),
      List.Pairwise (fun a b : Sub => a.submitted_at ≤ b.submitted_at) l →
      List.Pairwise (fun a b : Sub => a.submitted_at ≤ b.submitted_at)
        (insertBySubmittedAt s l) := by
  intro l
  induction l with
  | nil => intro _; simp [insertBySubmittedAt]
  | cons t ts ih =>
    intro hpw
    obtain ⟨hhead, htail⟩ := List.pairwise_cons.mp hpw
    simp only [insertBySubmittedAt]
    by_cases h : s.submitted_at ≤ t.submitted_at
    · rw [if_pos h]
      refine List.pairwise_cons.mpr ⟨?_, hpw⟩
      intro b hb
      rcases List.mem_cons.mp hb with hb | hb
      · rw [hb]; exact h
      · exact Nat.le_trans h (hhead b hb)
    · rw [if_neg h]
      refine List.pairwise_cons.mpr ⟨?_, ih htail⟩
      intro b hb
      rcases (mem_insertBy s ts b).mp hb with hb | hb
      · rw [hb]; exact Nat.le_of_not_le h
      · exact hhead b hb

/-- `sortSubs` sorts by submission time ascending. -/
theorem sortSubs_pairwise (l : List Sub) :
    List.Pairwise (fun a b : Sub => a.submitted_at ≤ b.submitted_at) (sortSubs l) := by
  unfold sortSubs
  induction l with
  | nil => simp
  | cons s t ih =>
    rw [List.foldr_cons]
    exact pairwise_insertBy s _ ih

/-- An eligible entry carries its originating submission. -/
theorem eligScore_fst {fetch : Nat → Option FetchedMsg} {allow : String} {s : Sub}
    {p : Sub × Nat} (h : eligScore fetch allow s = some p) : p.1 = s := by
  unfold eligScore at h
  rcases hf : fetch s.message_id with _ | msg
  · rw [hf] at h; simp at h
  · rw [hf] at h
    by_cases hal : is_domain_allowed s.url allow = true
    · simp only [hal, if_true] at h
      have h2 : (s, fireScore msg) = p := by
        exact Option.some.inj (by simpa using h)
      exact (congrArg Prod.fst h2).symm
    · rw [Bool.not_eq_true] at hal
      simp [hal] at h

/-- Filtering to the eligible submissions preserves time-sortedness. -/
theorem pairwise_eligible (fetch : Nat → Option FetchedMsg) (allow : String) :
    ∀ subs : List Sub,
      List.Pairwise (fun a b : Sub => a.submitted_at ≤ b.submitted_at) subs →
      List.Pairwise (fun a b : Sub × Nat => a.1.submitted_at ≤ b.1.submitted_at)
        (eligible fetch allow subs) := by
  intro subs
  induction subs with
  | nil => intro _; simp [eligible]
  | cons s t ih =>
    intro hpw
    obtain ⟨hhead, htail⟩ := List.pairwise_cons.mp hpw
    unfold eligible
    rcases he : eligScore fetch allow s with _ | p
    · rw [List.filterMap_cons_none he]
      exact ih htail
    · rw [List.filterMap_cons_some he]
      refine List.pairwise_cons.mpr ⟨?_, ih htail⟩
      intro q hq
      obtain ⟨s2, hs2, he2⟩ := List.mem_filterMap.mp hq
      rw [eligScore_fst he, eligScore_fst he2]
      exact hhead s2 hs2

/-- Ensuring a settings row leaves the rounds table alone. -/
theorem rounds_getOrCreate (cfg : Cfg) (db : DB) (g : Nat) :
    (getOrCreateSettings cfg db g).2.rounds = db.rounds := by
  unfold getOrCreateSettings
  rcases findSettings db g with _ | s <;> rfl

/-- Ensuring a settings row leaves the submissions table alone. -/
theorem submissions_getOrCreate (cfg : Cfg) (db : DB) (g : Nat) :
    (getOrCreateSettings cfg db g).2.submissions = db.submissions := by
  unfold getOrCreateSettings
  rcases findSettings db g with _ | s <;> rfl

/-- Resolving the webhook URL leaves the rounds table alone. -/
theorem rounds_resolve (cfg : Cfg) (db : DB) (g : Nat) :
    (resolveWebhookUrl cfg db g).2.rounds = db.rounds := by
  unfold resolveWebhookUrl
  rcases h : getOrCreateSettings cfg db g with ⟨s, db2⟩
  have h2 : db2.rounds = db.rounds := by
    have := rounds_getOrCreate cfg db g
    rw [h] at this
    exact this
  by_cases h1 : strip s.webhook_url ≠ ""
  · rw [if_pos h1]
    exact h2
  · rw [if_neg h1]
    by_cases h3 : strip cfg.webhook_url ≠ ""
    · rw [if_pos h3]
      exact h2
    · rw [if_neg h3]
      exact h2

/-- Resolving the webhook URL leaves the submissions table alone. -/
theorem submissions_resolve (cfg : Cfg) (db : DB) (g : Nat) :
    (resolveWebhookUrl cfg db g).2.submissions = db.submissions := by
  unfold resolveWebhookUrl
  rcases h : getOrCreateSettings cfg db g with ⟨s, db2⟩
  have h2 : db2.submissions = db.submissions := by
    have := submissions_getOrCreate cfg db g
    rw [h] at this
    exact this
  by_cases h1 : strip s.webhook_url ≠ ""
  · rw [if_pos h1]
    exact h2
  · rw [if_neg h1]
    by_cases h3 : strip cfg.webhook_url ≠ ""
    · rw [if_pos h3]
      exact h2
    · rw [if_neg h3]
      exact h2

/-- Round lookup only depends on the rounds table. -/
theorem lookupRound_congr {db1 db2 : DB} (h : db1.rounds = db2.rounds) (rid : Nat) :
    lookupRound db1 rid = lookupRound db2 rid := by
  unfold lookupRound
  rw [h]

/-- The round's submissions only depend on the submissions table. -/
theorem roundSubmissions_congr {db1 db2 : DB} (h : db1.submissions = db2.submissions)
    (rid : Nat) : roundSubmissions db1 rid = roundSubmissions db2 rid := by
  unfold roundSubmissions
  rw [h]

/-- Looking up the updated round sees the update, provided the updater
keeps the key. -/
theorem lookupRound_update (db : DB) (rid : Nat) (f : Round → Round)
    (hf : ∀ r, (f r).round_id = r.round_id) :
    lookupRound (updateRound db rid f) rid = (lookupRound db rid).map f := by
  unfold lookupRound updateRound
  show List.find? _ (db.rounds.map _) = _
  induction db.rounds with
  | nil => rfl
  | cons a t ih =>
    rw [List.map_cons]
    by_cases ha : (a.round_id == rid) = true
    · rw [List.find?_cons_of_pos t ha, if_pos ha,
        List.find?_cons_of_pos _ (by rw [hf a]; exact ha)]
      rfl
    · rw [List.find?_cons_of_neg t (by simp [ha]), if_neg ha,
        List.find?_cons_of_neg _ (by simp [ha])]
      exact ih

/-- Case analysis of `_end_round`: either it is a silent no-op on the
event trace, or every guard passed. -/
theorem end_round_cases (cfg : Cfg) (env : EndEnv) (db : DB) (rid : Nat) :
    (end_round cfg env db rid).2 = [] ∨
    ∃ round, lookupRound db rid = some round ∧ round.status = "running" ∧
      env.guildOk = true ∧ env.channelOk = true ∧ env.threadOk = true ∧
      (resolveWebhookUrl cfg (getOrCreateSettings cfg db round.guild_id).2
        round.guild_id).1 ≠ "" := by
  rcases hl : lookupRound db rid with _ | round
  · left
    simp [end_round, hl]
  · by_cases hs : round.status = "running"
    · by_cases hgg : env.guildOk = true
      · by_cases hcc : env.channelOk = true
        · by_cases htt : env.threadOk = true
          · by_cases hww : (resolveWebhookUrl cfg
                (getOrCreateSettings cfg db round.guild_id).2 round.guild_id).1 = ""
            · left
              simp [end_round, hl, hs, hgg, hcc, htt, hww]
            · right
              exact ⟨round, rfl, hs, hgg, hcc, htt, hww⟩
          · left
            rw [Bool.not_eq_true] at htt
            simp [end_round, hl, hs, hgg, hcc, htt]
        · left
          rw [Bool.not_eq_true] at hcc
          simp [end_round, hl, hs, hgg, hcc]
      · left
        rw [Bool.not_eq_true] at hgg
        simp [end_round, hl, hs, hgg]
    · left
      simp [end_round, hl, hs]

/-- Reduction of `_end_round` on the completing path. -/
theorem end_round_complete {cfg : Cfg} {env : EndEnv} {db : DB} {rid : Nat}
    {round : Round}
    (hlook : lookupRound db rid = some round)
    (hrun : round.status = "running")
    (hg : env.guildOk = true) (hc : env.channelOk = true) (ht : env.threadOk = true)
    (hw : (resolveWebhookUrl cfg (getOrCreateSettings cfg db round.guild_id).2
      round.guild_id).1 ≠ "") :
    end_round cfg env db rid =
      (updateRound (updateRound
          (resolveWebhookUrl cfg (getOrCreateSettings cfg db round.guild_id).2
            round.guild_id).2 rid
          (commitEndedUpd (winnerFields (endRoundFold env.fetch
            (allowOf cfg db round.guild_id)
            (roundSubmissions (resolveWebhookUrl cfg
              (getOrCreateSettings cfg db round.guild_id).2 round.guild_id).2 rid)))))
          rid (commitWinnersUpd env.annMsgId),
       [Event.commitEnded rid
          (winnerFields (endRoundFold env.fetch (allowOf cfg db round.guild_id)
            (roundSubmissions (resolveWebhookUrl cfg
              (getOrCreateSettings cfg db round.guild_id).2 round.guild_id).2 rid))).1
          (winnerFields (endRoundFold env.fetch (allowOf cfg db round.guild_id)
            (roundSubmissions (resolveWebhookUrl cfg
              (getOrCreateSettings cfg db round.guild_id).2 round.guild_id).2 rid))).2.1
          (winnerFields (endRoundFold env.fetch (allowOf cfg db round.guild_id)
            (roundSubmissions (resolveWebhookUrl cfg
              (getOrCreateSettings cfg db round.guild_id).2 round.guild_id).2 rid))).2.2,
        Event.sendAnnouncement (announcementContent (endRoundFold env.fetch
          (allowOf cfg db round.guild_id)
          (roundSubmissions (resolveWebhookUrl cfg
            (getOrCreateSettings cfg db round.guild_id).2 round.guild_id).2 rid))),
        Event.sendClosing "Thanks for dropping! See you tomorrow 🎵",
        Event.commitWinnersMsg rid env.annMsgId,
        Event.scheduleLockArchive round.thread_id]) := by
  simp only [end_round, hlook, hrun, hg, hc, ht]
  simp [hw]

/-- Resolving the webhook URL does not change the next round id. -/
theorem nextRoundId_resolve (cfg : Cfg) (db : DB) (g : Nat) :
    nextRoundId (resolveWebhookUrl cfg db g).2 = nextRoundId db := by
  unfold nextRoundId
  rw [rounds_resolve]

/-- The idempotence guard of `_end_round` (line 559): a round that is not
running is left alone. -/
theorem end_round_noop {cfg : Cfg} {env : EndEnv} {db : DB} {rid : Nat} {r : Round}
    (hl : lookupRound db rid = some r) (hs : r.status ≠ "running") :
    end_round cfg env db rid = (db, []) := by
  simp [end_round, hl, hs]

/-- After a completed `_end_round`, the round row carries the committed
winner fields and the `ended` status. -/
theorem end_round_lookup_after {cfg : Cfg} {env : EndEnv} {db : DB} {rid : Nat}
    {round : Round}
    (hlook : lookupRound db rid = some round)
    (hrun : round.status = "running")
    (hg : env.guildOk = true) (hc : env.channelOk = true) (ht : env.threadOk = true)
    (hw : (resolveWebhookUrl cfg (getOrCreateSettings cfg db round.guild_id).2
      round.guild_id).1 ≠ "") :
    lookupRound (end_round cfg env db rid).1 rid =
      some (commitWinnersUpd env.annMsgId (commitEndedUpd
        (winnerFields (endRoundFold env.fetch (allowOf cfg db round.guild_id)
          (roundSubmissions db rid))) round)) := by
  have hsubs : roundSubmissions (resolveWebhookUrl cfg
      (getOrCreateSettings cfg db round.guild_id).2 round.guild_id).2 rid =
      roundSubmissions db rid :=
    roundSubmissions_congr
      ((submissions_resolve ..).trans (submissions_getOrCreate ..)) rid
  have hlw : lookupRound (resolveWebhookUrl cfg
      (getOrCreateSettings cfg db round.guild_id).2 round.guild_id).2 rid =
      some round := by
    rw [lookupRound_congr ((rounds_resolve ..).trans (rounds_getOrCreate ..)) rid]
    exact hlook
  have hfst : (end_round cfg env db rid).1 =
      updateRound (updateRound (resolveWebhookUrl cfg
        (getOrCreateSettings cfg db round.guild_id).2 round.guild_id).2 rid
        (commitEndedUpd (winnerFields (endRoundFold env.fetch
          (allowOf cfg db round.guild_id) (roundSubmissions db rid))))) rid
        (commitWinnersUpd env.annMsgId) := by
    rw [end_round_complete hlook hrun hg hc ht hw, hsubs]
  rw [hfst]
  rw [lookupRound_update _ rid (commitWinnersUpd env.annMsgId) (fun r => rfl),
    lookupRound_update _ rid (commitEndedUpd (winnerFields (endRoundFold env.fetch
      (allowOf cfg db round.guild_id) (roundSubmissions db rid))))
      (fun r => rfl), hlw]
  rfl

/-- The event trace of a completed `_end_round`. -/
theorem end_round_trace_after {cfg : Cfg} {env : EndEnv} {db : DB} {rid : Nat}
    {round : Round}
    (hlook : lookupRound db rid = some round)
    (hrun : round.status = "running")
    (hg : env.guildOk = true) (hc : env.channelOk = true) (ht : env.threadOk = true)
    (hw : (resolveWebhookUrl cfg (getOrCreateSettings cfg db round.guild_id).2
      round.guild_id).1 ≠ "") :
    (end_round cfg env db rid).2 =
      [Event.commitEnded rid
        (winnerFields (endRoundFold env.fetch (allowOf cfg db round.guild_id)
          (roundSubmissions db rid))).1
        (winnerFields (endRoundFold env.fetch (allowOf cfg db round.guild_id)
          (roundSubmissions db rid))).2.1
        (winnerFields (endRoundFold env.fetch (allowOf cfg db round.guild_id)
          (roundSubmissions db rid))).2.2,
       Event.sendAnnouncement (announcementContent (endRoundFold env.fetch
         (allowOf cfg db round.guild_id) (roundSubmissions db rid))),
       Event.sendClosing "Thanks for dropping! See you tomorrow 🎵",
       Event.commitWinnersMsg rid env.annMsgId,
       Event.scheduleLockArchive round.thread_id] := by
  have hsubs : roundSubmissions (resolveWebhookUrl cfg
      (getOrCreateSettings cfg db round.guild_id).2 round.guild_id).2 rid =
      roundSubmissions db rid :=
    roundSubmissions_congr
      ((submissions_resolve ..).trans (submissions_getOrCreate ..)) rid
  rw [end_round_complete hlook hrun hg hc ht hw, hsubs]

/-- Inserting a submission leaves the rounds table alone. -/
theorem rounds_insertSub (db : DB) (s : Sub) :
    (insertSubmissionIfAbsent db s).rounds = db.rounds := by
  unfold insertSubmissionIfAbsent
  split <;> rfl

/-- Inserting a submission leaves the settings table alone. -/
theorem settings_insertSub (db : DB) (s : Sub) :
    (insertSubmissionIfAbsent db s).settings = db.settings := by
  unfold insertSubmissionIfAbsent
  split <;> rfl

/-- An absent key really is inserted (appended). -/
theorem submissions_insertSub_absent {db : DB} {s : Sub}
    (h : submissionKeyPresent db s.round_id s.message_id = false) :
    (insertSubmissionIfAbsent db s).submissions = db.submissions ++ [s] := by
  unfold insertSubmissionIfAbsent
  rw [if_neg (by simp [h])]

/-- The one-submission-per-user check only reads the submissions table. -/
theorem hasUserSubmitted_congr {db1 db2 : DB}
    (h : db1.submissions = db2.submissions) (rid uid : Nat) :
    hasUserSubmitted db1 rid uid = hasUserSubmitted db2 rid uid := by
  unfold hasUserSubmitted
  rw [h]

/-- The duplicate-key check only reads the submissions table. -/
theorem submissionKeyPresent_congr {db1 db2 : DB}
    (h : db1.submissions = db2.submissions) (rid mid : Nat) :
    submissionKeyPresent db1 rid mid = submissionKeyPresent db2 rid mid := by
  unfold submissionKeyPresent
  rw [h]

/-- Settings lookup only reads the settings table. -/
theorem findSettings_congr {db1 db2 : DB} (h : db1.settings = db2.settings)
    (g : Nat) : findSettings db1 g = findSettings db2 g := by
  unfold findSettings
  rw [h]

/-- A failed search scans past a prefix. -/
theorem find?_append_of_none {α : Type} {p : α → Bool} :
    ∀ {l1 : List α} (l2 : List α), l1.find? p = none →
      (l1 ++ l2).find? p = l2.find? p := by
  intro l1
  induction l1 with
  | nil => intro l2 _; rfl
  | cons a t ih =>
    intro l2 h
    by_cases ha : p a = true
    · rw [List.find?_cons_of_pos t ha] at h
      exact absurd h (by simp)
    · rw [Bool.not_eq_true] at ha
      rw [List.find?_cons_of_neg t (by simp [ha])] at h
      rw [List.cons_append, List.find?_cons_of_neg _ (by simp [ha])]
      exact ih l2 h

/-- When the settings row exists, `_get_settings` just returns it. -/
theorem getOrCreate_found {cfg : Cfg} {db : DB} {g : Nat} {s : Settings}
    (h : findSettings db g = some s) : getOrCreateSettings cfg db g = (s, db) := by
  unfold getOrCreateSettings
  rw [h]

/-- After `_get_settings`, the row is present and is the returned one. -/
theorem findSettings_after_getOrCreate (cfg : Cfg) (db : DB) (g : Nat) :
    findSettings (getOrCreateSettings cfg db g).2 g =
      some (getOrCreateSettings cfg db g).1 := by
  rcases h : findSettings db g with _ | s
  · unfold getOrCreateSettings
    rw [h]
    show findSettings _ g = _
    unfold findSettings
    show ((db.settings ++ [defaultSettingsRow cfg g]).find? _) = _
    rw [find?_append_of_none _ h]
    simp [defaultSettingsRow]
  · rw [getOrCreate_found h]
    exact h

/-- Reduction of `on_message` past the ambient guards, down to the URL
extraction, validation, one-per-user check and idempotent insert. -/
theorem on_message_eq (cfg : Cfg) {msg : InMsg} {now : Nat} {db : DB} {g : Nat}
    {r : Round}
    (hbot : msg.author_bot = false) (hg : msg.guild_id = some g)
    (hth : msg.in_thread = true)
    (hpick : pickLatestRunning db.rounds g msg.channel_id = some r)
    (hnow : ¬ (r.end_time ≤ now)) :
    on_message cfg msg now db =
      (match extract_first_url msg.content with
       | none => ((getOrCreateSettings cfg db g).2, [])
       | some url =>
         if is_domain_allowed url (allowOf cfg db g) = false
         then ((getOrCreateSettings cfg db g).2, [])
         else if hasUserSubmitted (getOrCreateSettings cfg db g).2 r.round_id
             msg.author_id
         then ((getOrCreateSettings cfg db g).2, [])
         else (insertSubmissionIfAbsent (getOrCreateSettings cfg db g).2
                 { round_id := r.round_id
                   guild_id := r.guild_id
                   thread_id := r.thread_id
                   message_id := msg.id
                   user_id := msg.author_id
                   submitted_at := now
                   url := url },
               [MsgEffect.addReaction msg.id "🔥"])) := by
  simp only [on_message, hbot, hg, hth, hpick, hnow]
  simp

/-- Equal settings tables give the same duration invariant. -/
theorem durInv_of_settings_eq {db1 db2 : DB} (hset : db1.settings = db2.settings)
    (h : durationInvariant db2) : durationInvariant db1 := by
  intro s hs
  exact h s (by rw [← hset]; exact hs)

/-- The defaults insertion keeps every duration at least 30. -/
theorem durInv_getOrCreate {cfg : Cfg} {db : DB} {g : Nat}
    (h : durationInvariant db) :
    durationInvariant (getOrCreateSettings cfg db g).2 := by
  rcases hf : findSettings db g with _ | s0
  · unfold getOrCreateSettings
    rw [hf]
    intro s hs
    rcases List.mem_append.mp hs with hs | hs
    · exact h s hs
    · rw [List.mem_singleton.mp hs]
      exact le_max_left ..
  · rw [getOrCreate_found hf]
    exact h

/-- A row update whose function respects the bound keeps the invariant. -/
theorem durInv_updateRow {db : DB} {g : Nat} {f : Settings → Settings}
    (h : durationInvariant db)
    (hf : ∀ s, 30 ≤ s.duration_seconds → 30 ≤ (f s).duration_seconds) :
    durationInvariant (updateSettingsRow db g f) := by
  intro s hs
  unfold updateSettingsRow at hs
  obtain ⟨t, ht, heq⟩ := List.mem_map.mp hs
  rw [← heq]
  by_cases hg : (t.guild_id == g) = true
  · rw [if_pos hg]
    exact hf t (h t ht)
  · rw [if_neg hg]
    exact h t ht

/-- Caching the webhook URL never touches durations. -/
theorem durInv_resolve {cfg : Cfg} {db : DB} {g : Nat} (h : durationInvariant db) :
    durationInvariant (resolveWebhookUrl cfg db g).2 := by
  unfold resolveWebhookUrl
  rcases h2 : getOrCreateSettings cfg db g with ⟨s, db2⟩
  have hdb2 : durationInvariant db2 := by
    have := @durInv_getOrCreate cfg db g h
    rw [h2] at this
    exact this
  by_cases h1 : strip s.webhook_url ≠ ""
  · rw [if_pos h1]
    exact hdb2
  · rw [if_neg h1]
    by_cases h3 : strip cfg.webhook_url ≠ ""
    · rw [if_pos h3]
      exact durInv_updateRow hdb2 (fun t ht => ht)
    · rw [if_neg h3]
      exact hdb2

/-- Refreshing the daily schedule never touches durations. -/
theorem durInv_getToday {rand today : String} {s : Settings} {db : DB}
    (h : durationInvariant db) :
    durationInvariant (getTodayDailyHHMM rand today s db).2 := by
  unfold getTodayDailyHHMM
  split
  · exact durInv_updateRow h (fun t ht => ht)
  · exact h

/-- The `/drop_config` field updates keep a compliant duration compliant,
and a supplied duration is stored clamped to at least 30. -/
theorem durInv_dropConfigUpdates (ch pr : Option Nat) (dm : Option Int)
    (de : Option Bool) (ac : Option String) (s : Settings)
    (h : 30 ≤ s.duration_seconds) :
    30 ≤ (dropConfigUpdates ch pr dm de ac s).duration_seconds := by
  rcases ch with _ | c <;> rcases pr with _ | p <;> rcases dm with _ | m <;>
    rcases de with _ | b <;> rcases ac with _ | a <;>
    simp [dropConfigUpdates] <;> omega

/-- `_end_round` never touches durations. -/
theorem durInv_end_round {cfg : Cfg} {env : EndEnv} {db : DB} {rid : Nat}
    (h : durationInvariant db) :
    durationInvariant (end_round cfg env db rid).1 := by
  rcases hl : lookupRound db rid with _ | round
  · have he : (end_round cfg env db rid).1 = db := by simp [end_round, hl]
    rw [he]
    exact h
  · by_cases hs : round.status = "running"
    · by_cases hgg : env.guildOk = true
      · by_cases hcc : env.channelOk = true
        · by_cases htt : env.threadOk = true
          · by_cases hww : (resolveWebhookUrl cfg
                (getOrCreateSettings cfg db round.guild_id).2 round.guild_id).1 = ""
            · have he : (end_round cfg env db rid).1 = (resolveWebhookUrl cfg
                  (getOrCreateSettings cfg db round.guild_id).2 round.guild_id).2 := by
                simp [end_round, hl, hs, hgg, hcc, htt, hww]
              rw [he]
              exact durInv_resolve (durInv_getOrCreate h)
            · have he : (end_round cfg env db rid).1 =
                  updateRound (updateRound (resolveWebhookUrl cfg
                    (getOrCreateSettings cfg db round.guild_id).2 round.guild_id).2 rid
                    (commitEndedUpd (winnerFields (endRoundFold env.fetch
                      (allowOf cfg db round.guild_id)
                      (roundSubmissions (resolveWebhookUrl cfg
                        (getOrCreateSettings cfg db round.guild_id).2
                        round.guild_id).2 rid))))) rid
                    (commitWinnersUpd env.annMsgId) := by
                rw [end_round_complete hl hs hgg hcc htt hww]
              rw [he]
              exact durInv_of_settings_eq rfl (durInv_resolve (durInv_getOrCreate h))
          · have he : (end_round cfg env db rid).1 = db := by
              rw [Bool.not_eq_true] at htt
              simp [end_round, hl, hs, hgg, hcc, htt]
            rw [he]
            exact h
        · have he : (end_round cfg env db rid).1 = db := by
            rw [Bool.not_eq_true] at hcc
            simp [end_round, hl, hs, hgg, hcc]
          rw [he]
          exact h
      · have he : (end_round cfg env db rid).1 = db := by
          rw [Bool.not_eq_true] at hgg
          simp [end_round, hl, hs, hgg]
        rw [he]
        exact h
    · have he : (end_round cfg env db rid).1 = db := by
        rw [end_round_noop hl hs]
      rw [he]
      exact h

/-- `_start_round` never touches durations. -/
theorem durInv_start_round {cfg : Cfg} {env : StartEnv} {db : DB}
    {guild channel : Nat} {pt : Option String} {dur : Int} {ping : Option Nat}
    {now : Nat} (h : durationInvariant db) :
    durationInvariant (start_round cfg env db guild channel pt dur ping now).2 := by
  have hres : durationInvariant (resolveWebhookUrl cfg db guild).2 := durInv_resolve h
  by_cases hw : (resolveWebhookUrl cfg db guild).1 = ""
  · have he : (start_round cfg env db guild channel pt dur ping now).2 =
        (resolveWebhookUrl cfg db guild).2 := by
      simp [start_round, hw]
    rw [he]
    exact hres
  · rcases hti : env.threadId with _ | tid
    · have he : (start_round cfg env db guild channel pt dur ping now).2 =
          (resolveWebhookUrl cfg db guild).2 := by
        simp [start_round, hw, hti]
      rw [he]
      exact hres
    · have he : (start_round cfg env db guild channel pt dur ping now).2.settings =
          (resolveWebhookUrl cfg db guild).2.settings := by
        simp [start_round, hw, hti]
      exact durInv_of_settings_eq he hres

/-- `on_message` never touches durations. -/
theorem durInv_on_message {cfg : Cfg} {msg : InMsg} {now : Nat} {db : DB}
    (h : durationInvariant db) :
    durationInvariant (on_message cfg msg now db).1 := by
  have hco : ∀ g : Nat, durationInvariant (getOrCreateSettings cfg db g).2 :=
    fun g => durInv_getOrCreate h
  unfold on_message
  split
  · exact h
  · split
    · exact h
    · split
      · exact h
      · split
        · exact h
        · split
          · exact h
          · split
            · exact hco _
            · split
              · exact hco _
              · split
                · exact hco _
                · exact durInv_of_settings_eq (settings_insertSub ..) (hco _)

/-- The overdue-ending half of a tick never touches durations. -/
theorem durInv_endOverdue {cfg : Cfg} {env : GuildTickEnv} {now : Nat} {db : DB}
    (h : durationInvariant db) :
    durationInvariant (endOverdue cfg env now db) := by
  unfold endOverdue
  generalize overdueRounds db now = l
  induction l generalizing db with
  | nil => exact h
  | cons rid t ih => exact ih (durInv_end_round h)

/-- A whole per-guild scheduler tick keeps every duration at least 30. -/
theorem durInv_tickForGuild {dayOf : Nat → String} {cfg : Cfg} {env : GuildTickEnv}
    {t : TickTime} {g : Nat} {db : DB} (h : durationInvariant db) :
    durationInvariant (tickForGuild dayOf cfg env t g db) := by
  unfold tickForGuild dailyStartPhase
  have h1 : durationInvariant (endOverdue cfg env t.unix db) := durInv_endOverdue h
  split
  · exact h1
  · rename_i s hs
    split
    · exact h1
    · split
      · exact h1
      · have h2 : durationInvariant (getTodayDailyHHMM env.rand t.day s
            (endOverdue cfg env t.unix db)).2 := durInv_getToday h1
        split
        · exact h2
        · split
          · exact h2
          · split
            · exact h2
            · split
              · exact h2
              · split
                · exact h2
                · exact durInv_start_round h2

/-- Refreshing the daily schedule leaves the rounds table alone. -/
theorem rounds_getToday (rand today : String) (s : Settings) (db : DB) :
    (getTodayDailyHHMM rand today s db).2.rounds = db.rounds := by
  unfold getTodayDailyHHMM
  split <;> rfl

/-- Today's round count only reads the rounds table. -/
theorem countToday_congr {db1 db2 : DB} (h : db1.rounds = db2.rounds)
    (dayOf : Nat → String) (g : Nat) (d : String) :
    countRoundsToday dayOf db1 g d = countRoundsToday dayOf db2 g d := by
  unfold countRoundsToday
  rw [h]

/-- A keyed conditional map with a predicate-preserving function does not
change a count. -/
theorem countP_condMap (p : Round → Bool) (rid : Nat) (f : Round → Round)
    (hf : ∀ r, p (f r) = p r) :
    ∀ l : List Round,
      (l.map (fun r => if r.round_id == rid then f r else r)).countP p =
        l.countP p := by
  intro l
  induction l with
  | nil => rfl
  | cons a t ih =>
    rw [List.map_cons, List.countP_cons, List.countP_cons, ih]
    by_cases ha : (a.round_id == rid) = true
    · rw [if_pos ha, hf a]
    · rw [if_neg ha]

/-- Two stacked keyed updates are one keyed update by the composite. -/
theorem updateRound_twice_rounds (d : DB) (rid : Nat) (f1 f2 : Round → Round)
    (h1 : ∀ r, (f1 r).round_id = r.round_id) :
    (updateRound (updateRound d rid f1) rid f2).rounds =
      d.rounds.map (fun r => if r.round_id == rid then f2 (f1 r) else r) := by
  show (d.rounds.map _).map _ = _
  rw [List.map_map]
  apply List.map_congr_left
  intro a _
  by_cases ha : (a.round_id == rid) = true
  · simp only [Function.comp, if_pos ha]
    rw [if_pos (by rw [h1 a]; exact ha)]
  · simp only [Function.comp, if_neg ha]

/-- `_end_round` either leaves the rounds table alone or rewrites the one
round in place, preserving owner and creation time. -/
theorem rounds_end_round_shape (cfg : Cfg) (env : EndEnv) (db : DB) (rid : Nat) :
    (end_round cfg env db rid).1.rounds = db.rounds ∨
    ∃ f : Round → Round,
      (∀ r, (f r).guild_id = r.guild_id ∧ (f r).created_at = r.created_at) ∧
      (end_round cfg env db rid).1.rounds =
        db.rounds.map (fun r => if r.round_id == rid then f r else r) := by
  rcases hl : lookupRound db rid with _ | round
  · left
    have he : (end_round cfg env db rid).1 = db := by simp [end_round, hl]
    rw [he]
  · by_cases hs : round.status = "running"
    · by_cases hgg : env.guildOk = true
      · by_cases hcc : env.channelOk = true
        · by_cases htt : env.threadOk = true
          · by_cases hww : (resolveWebhookUrl cfg
                (getOrCreateSettings cfg db round.guild_id).2 round.guild_id).1 = ""
            · left
              have he : (end_round cfg env db rid).1 = (resolveWebhookUrl cfg
                  (getOrCreateSettings cfg db round.guild_id).2 round.guild_id).2 := by
                simp [end_round, hl, hs, hgg, hcc, htt, hww]
              rw [he, rounds_resolve, rounds_getOrCreate]
            · right
              refine ⟨fun r => commitWinnersUpd env.annMsgId (commitEndedUpd
                (winnerFields (endRoundFold env.fetch (allowOf cfg db round.guild_id)
                  (roundSubmissions (resolveWebhookUrl cfg
                    (getOrCreateSettings cfg db round.guild_id).2
                    round.guild_id).2 rid))) r), fun r => ⟨rfl, rfl⟩, ?_⟩
              have hfst : (end_round cfg env db rid).1 =
                  updateRound (updateRound (resolveWebhookUrl cfg
                    (getOrCreateSettings cfg db round.guild_id).2 round.guild_id).2 rid
                    (commitEndedUpd (winnerFields (endRoundFold env.fetch
                      (allowOf cfg db round.guild_id)
                      (roundSubmissions (resolveWebhookUrl cfg
                        (getOrCreateSettings cfg db round.guild_id).2
                        round.guild_id).2 rid))))) rid
                    (commitWinnersUpd env.annMsgId) := by
                rw [end_round_complete hl hs hgg hcc htt hww]
              rw [hfst, updateRound_twice_rounds _ rid
                (commitEndedUpd (winnerFields (endRoundFold env.fetch
                  (allowOf cfg db round.guild_id)
                  (roundSubmissions (resolveWebhookUrl cfg
                    (getOrCreateSettings cfg db round.guild_id).2
                    round.guild_id).2 rid))))
                (commitWinnersUpd env.annMsgId) (fun r => rfl),
                rounds_resolve, rounds_getOrCreate]
          · left
            have he : (end_round cfg env db rid).1 = db := by
              rw [Bool.not_eq_true] at htt
              simp [end_round, hl, hs, hgg, hcc, htt]
            rw [he]
        · left
          have he : (end_round cfg env db rid).1 = db := by
            rw [Bool.not_eq_true] at hcc
            simp [end_round, hl, hs, hgg, hcc]
          rw [he]
      · left
        have he : (end_round cfg env db rid).1 = db := by
          rw [Bool.not_eq_true] at hgg
          simp [end_round, hl, hs, hgg]
        rw [he]
    · left
      have he : (end_round cfg env db rid).1 = db := by
        rw [end_round_noop hl hs]
      rw [he]

/-- `_end_round` does not change today's round count. -/
theorem countToday_end_round (dayOf : Nat → String) (cfg : Cfg) (env : EndEnv)
    (db : DB) (rid g : Nat) (d : String) :
    countRoundsToday dayOf (end_round cfg env db rid).1 g d =
      countRoundsToday dayOf db g d := by
  rcases rounds_end_round_shape cfg env db rid with h | ⟨f, hf, h⟩
  · unfold countRoundsToday
    rw [h]
  · unfold countRoundsToday
    rw [h]
    exact countP_condMap _ rid f (fun r => by rw [(hf r).1, (hf r).2]) db.rounds

/-- `_end_round` does not change the number of rounds. -/
theorem length_end_round (cfg : Cfg) (env : EndEnv) (db : DB) (rid : Nat) :
    (end_round cfg env db rid).1.rounds.length = db.rounds.length := by
  rcases rounds_end_round_shape cfg env db rid with h | ⟨f, -, h⟩ <;> rw [h] <;> simp

/-- The overdue-ending phase does not change today's round count. -/
theorem countToday_endOverdue (dayOf : Nat → String) (cfg : Cfg)
    (env : GuildTickEnv) (now : Nat) (db : DB) (g : Nat) (d : String) :
    countRoundsToday dayOf (endOverdue cfg env now db) g d =
      countRoundsToday dayOf db g d := by
  unfold endOverdue
  generalize overdueRounds db now = l
  induction l generalizing db with
  | nil => rfl
  | cons rid t ih =>
    rw [List.foldl_cons, ih, countToday_end_round]

/-- The overdue-ending phase does not change the number of rounds. -/
theorem length_endOverdue (cfg : Cfg) (env : GuildTickEnv) (now : Nat) (db : DB) :
    (endOverdue cfg env now db).rounds.length = db.rounds.length := by
  unfold endOverdue
  generalize overdueRounds db now = l
  induction l generalizing db with
  | nil => rfl
  | cons rid t ih =>
    rw [List.foldl_cons, ih, length_end_round]

/-- `_start_round` either persists nothing or appends exactly one round
owned by the guild and created now. -/
theorem start_round_rounds_cases (cfg : Cfg) (env : StartEnv) (db : DB)
    (guild channel : Nat) (pt : Option String) (dur : Int) (ping : Option Nat)
    (now : Nat) :
    (start_round cfg env db guild channel pt dur ping now).2.rounds = db.rounds ∨
    ∃ r : Round, r.guild_id = guild ∧ r.created_at = now ∧
      (start_round cfg env db guild channel pt dur ping now).2.rounds =
        db.rounds ++ [r] := by
  by_cases hw : (resolveWebhookUrl cfg db guild).1 = ""
  · left
    have he : (start_round cfg env db guild channel pt dur ping now).2 =
        (resolveWebhookUrl cfg db guild).2 := by
      simp [start_round, hw]
    rw [he, rounds_resolve]
  · rcases hti : env.threadId with _ | tid
    · left
      have he : (start_round cfg env db guild channel pt dur ping now).2 =
          (resolveWebhookUrl cfg db guild).2 := by
        simp [start_round, hw, hti]
      rw [he, rounds_resolve]
    · right
      refine ⟨{ round_id := nextRoundId db
                guild_id := guild
                channel_id := channel
                thread_id := tid
                start_time := now
                end_time := now + (max 30 dur).toNat
                status := "running"
                prompt_text := promptOf pt
                prompt_message_id := env.promptMsgId
                winners_message_id := none
                winner_user_id := none
                winner_message_id := none
                winner_score := 0
                created_at := now }, rfl, rfl, ?_⟩
      simp only [start_round, hw, hti]
      simp [rounds_resolve, nextRoundId_resolve, hw]

/-- A guild with no round created today counts zero rounds today. -/
theorem countToday_zero_of_not_started {dayOf : Nat → String} {db : DB} {g : Nat}
    {d : String} (h : roundStartedToday dayOf db g d = false) :
    countRoundsToday dayOf db g d = 0 := by
  unfold roundStartedToday at h
  unfold countRoundsToday
  rw [List.countP_eq_zero]
  rw [List.any_eq_false] at h
  exact h

/-- Case analysis of the daily-start phase: skip without touching the DB,
skip after (at most) refreshing today's schedule, or pass every guard and
attempt `_start_round`. -/
theorem dailyStartPhase_cases (dayOf : Nat → String) (cfg : Cfg)
    (env : GuildTickEnv) (t : TickTime) (g : Nat) (db : DB) :
    dailyStartPhase dayOf cfg env t g db = db ∨
    (∃ s, findSettings db g = some s ∧
      dailyStartPhase dayOf cfg env t g db = (getTodayDailyHHMM env.rand t.day s db).2) ∨
    (∃ s chanId,
      findSettings db g = some s ∧ s.daily_enabled = true ∧
      s.channel_id = some chanId ∧
      (getTodayDailyHHMM env.rand t.day s db).1 = t.hhmm ∧
      getRunningRound (getTodayDailyHHMM env.rand t.day s db).2 g = none ∧
      roundStartedToday dayOf (getTodayDailyHHMM env.rand t.day s db).2 g t.day
        = false ∧
      env.guildResolved = true ∧ env.channelResolved = true ∧
      dailyStartPhase dayOf cfg env t g db =
        (start_round cfg env.startEnv (getTodayDailyHHMM env.rand t.day s db).2 g
          chanId (some cfg.prompt_text)
          (if s.duration_seconds = 0 then cfg.duration_seconds
           else s.duration_seconds)
          (match s.ping_role_id with
            | some r => if r = 0 then none else some r
            | none => none) t.unix).2) := by
  rcases hf : findSettings db g with _ | s
  · left
    unfold dailyStartPhase
    rw [hf]
  · by_cases hen : s.daily_enabled = false
    · left
      unfold dailyStartPhase
      simp only [hf]
      rw [if_pos hen]
    · rcases hch : s.channel_id with _ | chanId
      · left
        unfold dailyStartPhase
        simp only [hf]
        rw [if_neg hen]
        simp only [hch]
      · by_cases hsch : (getTodayDailyHHMM env.rand t.day s db).1 ≠ t.hhmm
        · right
          left
          refine ⟨s, rfl, ?_⟩
          unfold dailyStartPhase
          simp only [hf]
          rw [if_neg hen]
          simp only [hch]
          rw [if_pos hsch]
        · by_cases hrun : (getRunningRound (getTodayDailyHHMM env.rand t.day s
              db).2 g).isSome = true
          · right
            left
            refine ⟨s, rfl, ?_⟩
            unfold dailyStartPhase
            simp only [hf]
            rw [if_neg hen]
            simp only [hch]
            rw [if_neg hsch, if_pos hrun]
          · by_cases hst : roundStartedToday dayOf
                (getTodayDailyHHMM env.rand t.day s db).2 g t.day = true
            · right
              left
              refine ⟨s, rfl, ?_⟩
              unfold dailyStartPhase
              simp only [hf]
              rw [if_neg hen]
              simp only [hch]
              rw [if_neg hsch, if_neg hrun, if_pos hst]
            · by_cases hgr : env.guildResolved = false
              · right
                left
                refine ⟨s, rfl, ?_⟩
                unfold dailyStartPhase
                simp only [hf]
                rw [if_neg hen]
                simp only [hch]
                rw [if_neg hsch, if_neg hrun, if_neg hst, if_pos hgr]
              · by_cases hcr : env.channelResolved = false
                · right
                  left
                  refine ⟨s, rfl, ?_⟩
                  unfold dailyStartPhase
                  simp only [hf]
                  rw [if_neg hen]
                  simp only [hch]
                  rw [if_neg hsch, if_neg hrun, if_neg hst, if_neg hgr, if_pos hcr]
                · right
                  right
                  refine ⟨s, chanId, rfl, ?_, hch, not_ne_iff.mp hsch,
                    Option.not_isSome_iff_eq_none.mp hrun,
                    Bool.not_eq_true _ ▸ hst, ?_, ?_, ?_⟩
                  · rw [Bool.not_eq_false] at hen
                    exact hen
                  · rw [Bool.not_eq_false] at hgr
                    exact hgr
                  · rw [Bool.not_eq_false] at hcr
                    exact hcr
                  · unfold dailyStartPhase
                    simp only [hf]
                    rw [if_neg hen]
                    simp only [hch]
                    rw [if_neg hsch, if_neg hrun, if_neg hst, if_neg hgr,
                      if_neg hcr]

/-- One tick creates at most one round today for the guild: the guarded
daily start only fires when no round was created today. -/
theorem tick_count_bound (dayOf : Nat → String) (cfg : Cfg) (env : GuildTickEnv)
    (t : TickTime) (g : Nat) (db : DB) (d : String)
    (h1 : t.day = d) (h2 : dayOf t.unix = d) :
    countRoundsToday dayOf (tickForGuild dayOf cfg env t g db) g d ≤
      max (countRoundsToday dayOf db g d) 1 := by
  subst h1
  unfold tickForGuild
  have hover := countToday_endOverdue dayOf cfg env t.unix db g t.day
  rcases dailyStartPhase_cases dayOf cfg env t g (endOverdue cfg env t.unix db) with
    h | ⟨s, hfind, h⟩ | ⟨s, chanId, hfind, hen, hch, hsch, hrun, hstart, hgr, hcr, h⟩
  · rw [h, hover]
    exact le_max_left ..
  · rw [h, countToday_congr (rounds_getToday ..) dayOf g t.day, hover]
    exact le_max_left ..
  · rw [h]
    have hzero : countRoundsToday dayOf (getTodayDailyHHMM env.rand t.day s
        (endOverdue cfg env t.unix db)).2 g t.day = 0 :=
      countToday_zero_of_not_started hstart
    rcases start_round_rounds_cases cfg env.startEnv
      (getTodayDailyHHMM env.rand t.day s (endOverdue cfg env t.unix db)).2 g chanId
      (some cfg.prompt_text)
      (if s.duration_seconds = 0 then cfg.duration_seconds else s.duration_seconds)
      (match s.ping_role_id with
        | some r => if r = 0 then none else some r
        | none => none) t.unix with hr | ⟨r, hg2, hc2, hr⟩
    · have : countRoundsToday dayOf (start_round cfg env.startEnv
          (getTodayDailyHHMM env.rand t.day s (endOverdue cfg env t.unix db)).2 g
          chanId (some cfg.prompt_text)
          (if s.duration_seconds = 0 then cfg.duration_seconds
           else s.duration_seconds)
          (match s.ping_role_id with
            | some r => if r = 0 then none else some r
            | none => none) t.unix).2 g t.day = 0 := by
        rw [countToday_congr hr dayOf g t.day]
        exact hzero
      omega
    · have : countRoundsToday dayOf (start_round cfg env.startEnv
          (getTodayDailyHHMM env.rand t.day s (endOverdue cfg env t.unix db)).2 g
          chanId (some cfg.prompt_text)
          (if s.duration_seconds = 0 then cfg.duration_seconds
           else s.duration_seconds)
          (match s.ping_role_id with
            | some r => if r = 0 then none else some r
            | none => none) t.unix).2 g t.day ≤ 1 := by
        unfold countRoundsToday
        rw [hr, List.countP_append]
        have h0 : (getTodayDailyHHMM env.rand t.day s
            (endOverdue cfg env t.unix db)).2.rounds.countP
            (fun r => r.guild_id == g && dayOf r.created_at == t.day) = 0 := hzero
        rw [h0]
        have : List.countP (fun r => r.guild_id == g && dayOf r.created_at == t.day)
            [r] ≤ 1 := by
          rw [List.countP_cons]
          simp only [List.countP_nil, Nat.zero_add]
          split <;> omega
        omega
      omega

/-- Sequential same-day ticks keep the day's round count at most one. -/
theorem ticks_count_le_one (dayOf : Nat → String) (cfg : Cfg) (g : Nat)
    (d : String) :
    ∀ (ticks : List (GuildTickEnv × TickTime)) (db : DB),
      (∀ p ∈ ticks, p.2.day = d ∧ dayOf p.2.unix = d) →
      countRoundsToday dayOf db g d ≤ 1 →
      countRoundsToday dayOf
        (ticks.foldl (fun acc p => tickForGuild dayOf cfg p.1 p.2 g acc) db) g d
        ≤ 1 := by
  intro ticks
  induction ticks with
  | nil =>
    intro db _ h
    exact h
  | cons p ts ih =>
    intro db hdays h
    rw [List.foldl_cons]
    apply ih _ (fun q hq => hdays q (List.mem_cons_of_mem p hq))
    have hb := tick_count_bound dayOf cfg p.1 p.2 g db d
      (hdays p (List.mem_cons_self p ts)).1 (hdays p (List.mem_cons_self p ts)).2
    omega

/- ============================================================
   Claim theorems
   ============================================================ -/

/-- C1: in every completed run of `_end_round`, the recorded winner is
chosen only among the eligible submissions (re-fetchable message, URL
still allow-listed), iterated in ascending submission time
(`roundSubmissions` is sorted): it is an eligible submission of strictly
maximal score, ties broken in favour of the earliest-submitted one; when
no eligible submission exists, the stored winner fields are null/null/0. -/
theorem claim_C1 (cfg : Cfg) (env : EndEnv) (db : DB) (rid : Nat) (round : Round)
    (hlook : lookupRound db rid = some round)
    (hrun : round.status = "running")
    (hg : env.guildOk = true) (hc : env.channelOk = true) (ht : env.threadOk = true)
    (hw : (resolveWebhookUrl cfg (getOrCreateSettings cfg db round.guild_id).2
      round.guild_id).1 ≠ "") :
    ∃ r2, lookupRound (end_round cfg env db rid).1 rid = some r2 ∧
      ((eligible env.fetch (allowOf cfg db round.guild_id)
          (roundSubmissions db rid) = [] →
        r2.winner_user_id = none ∧ r2.winner_message_id = none ∧ r2.winner_score = 0) ∧
       ∀ x l, eligible env.fetch (allowOf cfg db round.guild_id)
          (roundSubmissions db rid) = x :: l →
        ∃ p, p ∈ x :: l ∧
          r2.winner_user_id = some p.1.user_id ∧
          r2.winner_message_id = some p.1.message_id ∧
          r2.winner_score = p.2 ∧
          (∀ q ∈ x :: l, q.2 ≤ p.2) ∧
          (∀ q ∈ x :: l, q.2 = p.2 → p.1.submitted_at ≤ q.1.submitted_at)) := by
  have hsubs : roundSubmissions (resolveWebhookUrl cfg
      (getOrCreateSettings cfg db round.guild_id).2 round.guild_id).2 rid =
      roundSubmissions db rid :=
    roundSubmissions_congr
      ((submissions_resolve ..).trans (submissions_getOrCreate ..)) rid
  have hlw : lookupRound (resolveWebhookUrl cfg
      (getOrCreateSettings cfg db round.guild_id).2 round.guild_id).2 rid =
      some round := by
    rw [lookupRound_congr ((rounds_resolve ..).trans (rounds_getOrCreate ..)) rid]
    exact hlook
  have hfst : (end_round cfg env db rid).1 =
      updateRound (updateRound (resolveWebhookUrl cfg
        (getOrCreateSettings cfg db round.guild_id).2 round.guild_id).2 rid
        (commitEndedUpd (winnerFields (endRoundFold env.fetch
          (allowOf cfg db round.guild_id) (roundSubmissions db rid))))) rid
        (commitWinnersUpd env.annMsgId) := by
    rw [end_round_complete hlook hrun hg hc ht hw, hsubs]
  rw [hfst]
  refine ⟨commitWinnersUpd env.annMsgId (commitEndedUpd
      (winnerFields (endRoundFold env.fetch (allowOf cfg db round.guild_id)
        (roundSubmissions db rid))) round), ?_, ?_, ?_⟩
  · rw [lookupRound_update _ rid (commitWinnersUpd env.annMsgId) (fun r => rfl),
      lookupRound_update _ rid (commitEndedUpd (winnerFields (endRoundFold env.fetch
        (allowOf cfg db round.guild_id) (roundSubmissions db rid))))
        (fun r => rfl), hlw]
    rfl
  · intro hnil
    rw [endRoundFold_of_elig_nil hnil]
    have hwf : winnerFields initBest = (none, none, 0) := by decide
    simp [commitWinnersUpd, commitEndedUpd, hwf]
  · intro x l hx
    rw [endRoundFold_of_elig_cons hx]
    have hwf : winnerFields (toBest (firstMaxAux x l)) =
        (some (firstMaxAux x l).1.user_id, some (firstMaxAux x l).1.message_id,
          (firstMaxAux x l).2) := by
      simp [winnerFields, toBest, Int.natCast_nonneg]
    have hpwS : List.Pairwise (fun a b : Sub => a.submitted_at ≤ b.submitted_at)
        (roundSubmissions db rid) := by
      unfold roundSubmissions
      exact sortSubs_pairwise _
    have hpw : List.Pairwise (fun a b : Sub × Nat =>
        a.1.submitted_at ≤ b.1.submitted_at) (x :: l) := by
      rw [← hx]
      exact pairwise_eligible env.fetch (allowOf cfg db round.guild_id) _ hpwS
    refine ⟨firstMaxAux x l, firstMaxAux_mem l x, ?_, ?_, ?_, ?_, ?_⟩
    · simp [commitWinnersUpd, commitEndedUpd, hwf]
    · simp [commitWinnersUpd, commitEndedUpd, hwf]
    · simp [commitWinnersUpd, commitEndedUpd, hwf]
    · exact firstMaxAux_max l x
    · exact firstMaxAux_first l x hpw

/-- C1 witness: two eligible submissions with score 3 each — the earlier
one (user 7, message 101) is recorded as the winner. -/
theorem claim_C1_witness :
    ∃ r2, lookupRound (end_round wCfg wEndEnv wDb 1).1 1 = some r2 ∧
      ((eligible wEndEnv.fetch (allowOf wCfg wDb wRound.guild_id)
          (roundSubmissions wDb 1) = [] →
        r2.winner_user_id = none ∧ r2.winner_message_id = none ∧ r2.winner_score = 0) ∧
       ∀ x l, eligible wEndEnv.fetch (allowOf wCfg wDb wRound.guild_id)
          (roundSubmissions wDb 1) = x :: l →
        ∃ p, p ∈ x :: l ∧
          r2.winner_user_id = some p.1.user_id ∧
          r2.winner_message_id = some p.1.message_id ∧
          r2.winner_score = p.2 ∧
          (∀ q ∈ x :: l, q.2 ≤ p.2) ∧
          (∀ q ∈ x :: l, q.2 = p.2 → p.1.submitted_at ≤ q.1.submitted_at)) :=
  claim_C1 wCfg wEndEnv wDb 1 wRound (by decide) (by decide) (by decide) (by decide)
    (by decide) (by decide)

/-- C4: `_end_round` is a no-op whenever the round's status is not
`running` (or the round does not exist), and after a completed first call
— one that performed the commit/announcement work, i.e. emitted events — a
second call on the same round changes no state and emits no event, so the
work happens exactly once in total. -/
theorem claim_C4 (cfg : Cfg) (env env2 : EndEnv) (db : DB) (rid : Nat) :
    ((∀ round, lookupRound db rid = some round → round.status ≠ "running" →
        end_round cfg env db rid = (db, [])) ∧
     (lookupRound db rid = none → end_round cfg env db rid = (db, []))) ∧
    ((end_round cfg env db rid).2 ≠ [] →
      end_round cfg env2 (end_round cfg env db rid).1 rid =
        ((end_round cfg env db rid).1, [])) := by
  refine ⟨⟨?_, ?_⟩, ?_⟩
  · intro round hl hs
    exact end_round_noop hl hs
  · intro hl
    simp [end_round, hl]
  · intro hne
    rcases end_round_cases cfg env db rid with h | ⟨round, hl, hs, hgg, hcc, htt, hww⟩
    · exact absurd h hne
    · have hl2 := end_round_lookup_after hl hs hgg hcc htt hww
      exact end_round_noop hl2 (by simp [commitWinnersUpd, commitEndedUpd])

/-- C4 witness: on the concrete fixture the first call completes, and the
second call is a no-op. -/
theorem claim_C4_witness :
    (end_round wCfg wEndEnv wDb 1).2 ≠ [] ∧
      end_round wCfg wEndEnv (end_round wCfg wEndEnv wDb 1).1 1 =
        ((end_round wCfg wEndEnv wDb 1).1, []) :=
  ⟨by decide, (claim_C4 wCfg wEndEnv wEndEnv wDb 1).2 (by decide)⟩

/-- C5: in every execution of `_end_round`, any message send in the event
trace is strictly preceded by the commit of the ended status and winner
fields; and whenever the trace is nonempty, the round is stored with
status `ended` (so, by the C4 guard, it can never again be processed as
running). -/
theorem claim_C5 (cfg : Cfg) (env : EndEnv) (db : DB) (rid : Nat) :
    (∀ i e, (end_round cfg env db rid).2.get? i = some e → isSend e = true →
      ∃ j, j < i ∧ ∃ wu wm ws, (end_round cfg env db rid).2.get? j =
        some (Event.commitEnded rid wu wm ws)) ∧
    ((end_round cfg env db rid).2 ≠ [] →
      ∃ r2, lookupRound (end_round cfg env db rid).1 rid = some r2 ∧
        r2.status = "ended") := by
  rcases end_round_cases cfg env db rid with h | ⟨round, hl, hs, hgg, hcc, htt, hww⟩
  · constructor
    · intro i e hi
      rw [h] at hi
      simp at hi
    · intro hne
      exact absurd h hne
  · have htr := end_round_trace_after hl hs hgg hcc htt hww
    constructor
    · intro i e hi hsend
      rw [htr] at hi
      rcases i with _ | _ | _ | _ | _ | i
      · simp only [List.get?_cons_zero] at hi
        rw [← Option.some.inj hi] at hsend
        simp [isSend] at hsend
      · exact ⟨0, by omega, _, _, _, by rw [htr]; rfl⟩
      · exact ⟨0, by omega, _, _, _, by rw [htr]; rfl⟩
      · simp only [List.get?_cons_succ, List.get?_cons_zero] at hi
        rw [← Option.some.inj hi] at hsend
        simp [isSend] at hsend
      · simp only [List.get?_cons_succ, List.get?_cons_zero] at hi
        rw [← Option.some.inj hi] at hsend
        simp [isSend] at hsend
      · simp at hi
    · intro _
      exact ⟨_, end_round_lookup_after hl hs hgg hcc htt hww, rfl⟩

/-- C5 witness: on the concrete fixture the trace is nonempty and the
round ends up stored with status `ended`. -/
theorem claim_C5_witness :
    ∃ r2, lookupRound (end_round wCfg wEndEnv wDb 1).1 1 = some r2 ∧
      r2.status = "ended" :=
  (claim_C5 wCfg wEndEnv wDb 1).2 (by decide)

/-- C6: given a live running round for the thread, the intake path inserts
no submission row when the text has no extractable URL, when the URL's
domain is not allow-listed, or when the author already submitted in the
round — and then requests no reaction; otherwise it appends exactly one
row and requests the voting-marker reaction, and a second call with the
same message is a complete no-op, leaving exactly one row for the
(round, message) key. -/
theorem claim_C6 (cfg : Cfg) (msg : InMsg) (now : Nat) (db : DB) (g : Nat) (r : Round)
    (hbot : msg.author_bot = false) (hg : msg.guild_id = some g)
    (hth : msg.in_thread = true)
    (hpick : pickLatestRunning db.rounds g msg.channel_id = some r)
    (hnow : now < r.end_time) :
    ((extract_first_url msg.content = none →
        (on_message cfg msg now db).1.submissions = db.submissions ∧
        (on_message cfg msg now db).2 = []) ∧
     (∀ u, extract_first_url msg.content = some u →
        is_domain_allowed u (allowOf cfg db g) = false →
        (on_message cfg msg now db).1.submissions = db.submissions ∧
        (on_message cfg msg now db).2 = []) ∧
     (∀ u, extract_first_url msg.content = some u →
        hasUserSubmitted db r.round_id msg.author_id = true →
        (on_message cfg msg now db).1.submissions = db.submissions ∧
        (on_message cfg msg now db).2 = [])) ∧
    (∀ u, extract_first_url msg.content = some u →
      is_domain_allowed u (allowOf cfg db g) = true →
      hasUserSubmitted db r.round_id msg.author_id = false →
      submissionKeyPresent db r.round_id msg.id = false →
      (on_message cfg msg now db).1.submissions =
        db.submissions ++ [{ round_id := r.round_id
                             guild_id := r.guild_id
                             thread_id := r.thread_id
                             message_id := msg.id
                             user_id := msg.author_id
                             submitted_at := now
                             url := u }] ∧
      (on_message cfg msg now db).2 = [MsgEffect.addReaction msg.id "🔥"] ∧
      on_message cfg msg now (on_message cfg msg now db).1 =
        ((on_message cfg msg now db).1, [])) := by
  have hnow2 : ¬ (r.end_time ≤ now) := by omega
  have E := on_message_eq cfg hbot hg hth hpick hnow2
  have hS2sub := submissions_getOrCreate cfg db g
  refine ⟨⟨?_, ?_, ?_⟩, ?_⟩
  · intro hx
    rw [E]
    simp only [hx]
    constructor <;> simp [hS2sub]
  · intro u hx hdom
    rw [E]
    simp only [hx, hdom]
    constructor <;> simp [hS2sub]
  · intro u hx huser
    rw [E]
    simp only [hx]
    by_cases hdom : is_domain_allowed u (allowOf cfg db g) = false
    · simp only [hdom]
      simp only [if_true]
      constructor <;> simp [hS2sub]
    · rw [Bool.not_eq_false] at hdom
      have huser2 : hasUserSubmitted (getOrCreateSettings cfg db g).2 r.round_id
          msg.author_id = true := by
        rw [hasUserSubmitted_congr hS2sub]
        exact huser
      simp only [hdom, huser2]
      simp only [Bool.true_eq_false, if_false, if_true]
      constructor <;> simp [hS2sub]
  · intro u hx hdom huser hkey
    have huser2 : hasUserSubmitted (getOrCreateSettings cfg db g).2 r.round_id
        msg.author_id = false := by
      rw [hasUserSubmitted_congr hS2sub]
      exact huser
    have hkey2 : submissionKeyPresent (getOrCreateSettings cfg db g).2 r.round_id
        msg.id = false := by
      rw [submissionKeyPresent_congr hS2sub]
      exact hkey
    have hfst : on_message cfg msg now db =
        (insertSubmissionIfAbsent (getOrCreateSettings cfg db g).2
           { round_id := r.round_id
             guild_id := r.guild_id
             thread_id := r.thread_id
             message_id := msg.id
             user_id := msg.author_id
             submitted_at := now
             url := u },
         [MsgEffect.addReaction msg.id "🔥"]) := by
      rw [E]
      simp only [hx, hdom, huser2]
      simp
    have hins := @submissions_insertSub_absent (getOrCreateSettings cfg db g).2
      { round_id := r.round_id
        guild_id := r.guild_id
        thread_id := r.thread_id
        message_id := msg.id
        user_id := msg.author_id
        submitted_at := now
        url := u } hkey2
    refine ⟨?_, ?_, ?_⟩
    · rw [hfst]
      show (insertSubmissionIfAbsent _ _).submissions = _
      rw [hins, hS2sub]
    · rw [hfst]
    · rw [hfst]
      show on_message cfg msg now (insertSubmissionIfAbsent _ _) = _
      have hrounds1 : (insertSubmissionIfAbsent (getOrCreateSettings cfg db g).2
          { round_id := r.round_id
            guild_id := r.guild_id
            thread_id := r.thread_id
            message_id := msg.id
            user_id := msg.author_id
            submitted_at := now
            url := u }).rounds = db.rounds := by
        rw [rounds_insertSub, rounds_getOrCreate]
      have hpick1 : pickLatestRunning (insertSubmissionIfAbsent
          (getOrCreateSettings cfg db g).2
          { round_id := r.round_id
            guild_id := r.guild_id
            thread_id := r.thread_id
            message_id := msg.id
            user_id := msg.author_id
            submitted_at := now
            url := u }).rounds g msg.channel_id = some r := by
        rw [hrounds1]
        exact hpick
      have E1 := on_message_eq cfg hbot hg hth hpick1 hnow2
      have hfind : findSettings (insertSubmissionIfAbsent
          (getOrCreateSettings cfg db g).2
          { round_id := r.round_id
            guild_id := r.guild_id
            thread_id := r.thread_id
            message_id := msg.id
            user_id := msg.author_id
            submitted_at := now
            url := u }) g = some (getOrCreateSettings cfg db g).1 := by
        rw [findSettings_congr (settings_insertSub _ _) g]
        exact findSettings_after_getOrCreate cfg db g
      have hgoc1 := @getOrCreate_found cfg _ _ _ hfind
      have hallow : allowOf cfg (insertSubmissionIfAbsent
          (getOrCreateSettings cfg db g).2
          { round_id := r.round_id
            guild_id := r.guild_id
            thread_id := r.thread_id
            message_id := msg.id
            user_id := msg.author_id
            submitted_at := now
            url := u }) g = allowOf cfg db g := by
        unfold allowOf
        rw [hgoc1]
      have hdom1 : is_domain_allowed u (allowOf cfg (insertSubmissionIfAbsent
          (getOrCreateSettings cfg db g).2
          { round_id := r.round_id
            guild_id := r.guild_id
            thread_id := r.thread_id
            message_id := msg.id
            user_id := msg.author_id
            submitted_at := now
            url := u }) g) = true := by
        rw [hallow]
        exact hdom
      have huser1 : hasUserSubmitted (insertSubmissionIfAbsent
          (getOrCreateSettings cfg db g).2
          { round_id := r.round_id
            guild_id := r.guild_id
            thread_id := r.thread_id
            message_id := msg.id
            user_id := msg.author_id
            submitted_at := now
            url := u }) r.round_id msg.author_id = true := by
        unfold hasUserSubmitted
        rw [hins, hS2sub]
        rw [List.any_append]
        simp
      rw [E1]
      simp only [hx, hdom1, huser1, hgoc1]
      simp

/-- C6 witness: a fresh submission with an allow-listed YouTube link is
inserted once with the reaction requested, and re-delivery is a no-op. -/
theorem claim_C6_witness :
    (on_message wCfg wMsg 100 wDbNoSubs).1.submissions =
      wDbNoSubs.submissions ++ [{ round_id := wRound.round_id
                                  guild_id := wRound.guild_id
                                  thread_id := wRound.thread_id
                                  message_id := wMsg.id
                                  user_id := wMsg.author_id
                                  submitted_at := 100
                                  url := "https://youtu.be/abc123" }] ∧
    (on_message wCfg wMsg 100 wDbNoSubs).2 =
      [MsgEffect.addReaction wMsg.id "🔥"] ∧
    on_message wCfg wMsg 100 (on_message wCfg wMsg 100 wDbNoSubs).1 =
      ((on_message wCfg wMsg 100 wDbNoSubs).1, []) :=
  (claim_C6 wCfg wMsg 100 wDbNoSubs 1 wRound (by decide) (by decide) (by decide)
    (by decide) (by decide)).2 "https://youtu.be/abc123" (by decide) (by decide)
    (by decide) (by decide)

/-- C7: a daily round is auto-started on a tick only when daily auto-start
is enabled, a channel is configured, today's scheduled HH:MM equals the
tick's minute label, no round is running, and no round was created today;
consequently one tick adds at most one round for the day, and under
sequential same-day ticks at most one round is ever created per community
per UTC calendar day. -/
theorem claim_C7 (dayOf : Nat → String) (cfg : Cfg) :
    (∀ (env : GuildTickEnv) (t : TickTime) (g : Nat) (db : DB),
      db.rounds.length < (tickForGuild dayOf cfg env t g db).rounds.length →
      ∃ s chanId,
        findSettings (endOverdue cfg env t.unix db) g = some s ∧
        s.daily_enabled = true ∧
        s.channel_id = some chanId ∧
        (getTodayDailyHHMM env.rand t.day s (endOverdue cfg env t.unix db)).1 =
          t.hhmm ∧
        getRunningRound (getTodayDailyHHMM env.rand t.day s
          (endOverdue cfg env t.unix db)).2 g = none ∧
        roundStartedToday dayOf (getTodayDailyHHMM env.rand t.day s
          (endOverdue cfg env t.unix db)).2 g t.day = false) ∧
    (∀ (env : GuildTickEnv) (t : TickTime) (g : Nat) (db : DB) (d : String),
      t.day = d → dayOf t.unix = d →
      countRoundsToday dayOf (tickForGuild dayOf cfg env t g db) g d ≤
        max (countRoundsToday dayOf db g d) 1) ∧
    (∀ (ticks : List (GuildTickEnv × TickTime)) (g : Nat) (db : DB) (d : String),
      (∀ p ∈ ticks, p.2.day = d ∧ dayOf p.2.unix = d) →
      countRoundsToday dayOf db g d = 0 →
      countRoundsToday dayOf
        (ticks.foldl (fun acc p => tickForGuild dayOf cfg p.1 p.2 g acc) db) g d
        ≤ 1) := by
  refine ⟨?_, fun env t g db d h1 h2 => tick_count_bound dayOf cfg env t g db d h1 h2,
    fun ticks g db d hd h0 =>
      ticks_count_le_one dayOf cfg g d ticks db hd (by omega)⟩
  intro env t g db hlen
  unfold tickForGuild at hlen
  have hov := length_endOverdue cfg env t.unix db
  rcases dailyStartPhase_cases dayOf cfg env t g (endOverdue cfg env t.unix db) with
    h | ⟨s, hfind, h⟩ | ⟨s, chanId, hfind, hen, hch, hsch, hrun, hstart, hgr, hcr, h⟩
  · rw [h] at hlen
    omega
  · rw [h] at hlen
    have heq : (getTodayDailyHHMM env.rand t.day s
        (endOverdue cfg env t.unix db)).2.rounds.length =
        (endOverdue cfg env t.unix db).rounds.length := by
      rw [rounds_getToday]
    omega
  · exact ⟨s, chanId, hfind, hen, hch, hsch, hrun, hstart⟩

/-- C7 witness: two ticks at the scheduled minute of the same day, from a
database with no rounds, leave at most one round created that day. -/
theorem claim_C7_witness :
    countRoundsToday wDayOf
      ([(wTickEnv, wTickTime), (wTickEnv, wTickTime)].foldl
        (fun acc p => tickForGuild wDayOf wCfg p.1 p.2 1 acc) wDbRoundless) 1
      "2026-10-12" ≤ 1 :=
  (claim_C7 wDayOf wCfg).2.2 [(wTickEnv, wTickTime), (wTickEnv, wTickTime)] 1
    wDbRoundless "2026-10-12"
    (by
      intro p hp
      rcases List.mem_cons.mp hp with h | h
      · rw [h]
        exact ⟨rfl, rfl⟩
      · rw [List.mem_singleton.mp h]
        exact ⟨rfl, rfl⟩)
    (by decide)

/-- C8: `_start_round` returns `none` exactly when no webhook URL can be
resolved or thread creation fails, and then persists no round row; a
failed prompt post does not abort — the round row is still persisted with
status `running` and a null prompt-message id, and the new round id is
returned. -/
theorem claim_C8 (cfg : Cfg) (env : StartEnv) (db : DB) (guild channel : Nat)
    (promptText : Option String) (dur : Int) (ping : Option Nat) (now : Nat) :
    ((start_round cfg env db guild channel promptText dur ping now).1 = none ↔
      ((resolveWebhookUrl cfg db guild).1 = "" ∨ env.threadId = none)) ∧
    ((start_round cfg env db guild channel promptText dur ping now).1 = none →
      (start_round cfg env db guild channel promptText dur ping now).2.rounds =
        db.rounds) ∧
    (∀ tid, (resolveWebhookUrl cfg db guild).1 ≠ "" → env.threadId = some tid →
      env.promptMsgId = none →
      ∃ r : Round,
        (start_round cfg env db guild channel promptText dur ping now).1 =
          some (nextRoundId db) ∧
        (start_round cfg env db guild channel promptText dur ping now).2.rounds =
          db.rounds ++ [r] ∧
        r.status = "running" ∧ r.prompt_message_id = none ∧
        r.round_id = nextRoundId db) := by
  by_cases hw : (resolveWebhookUrl cfg db guild).1 = ""
  · refine ⟨by simp [start_round, hw], ?_, ?_⟩
    · intro _
      simp only [start_round, hw, if_pos]
      simp [rounds_resolve]
    · intro tid hw2 _ _
      exact absurd hw hw2
  · rcases hti : env.threadId with _ | tid
    · refine ⟨by simp [start_round, hw, hti], ?_, ?_⟩
      · intro _
        simp only [start_round, hw, hti, if_neg, ite_false]
        simp [hw, rounds_resolve]
      · intro tid _ hti2 _
        exact absurd hti2 (by simp)
    · constructor
      · simp [start_round, hw, hti]
      · constructor
        · intro hnone
          rw [show (start_round cfg env db guild channel promptText dur ping now).1 =
              some (nextRoundId (resolveWebhookUrl cfg db guild).2) by
            simp [start_round, hw, hti]] at hnone
          exact absurd hnone (by simp)
        · intro tid2 _ hti2 hpm
          refine ⟨{ round_id := nextRoundId db
                    guild_id := guild
                    channel_id := channel
                    thread_id := tid
                    start_time := now
                    end_time := now + (max 30 dur).toNat
                    status := "running"
                    prompt_text := promptOf promptText
                    prompt_message_id := none
                    winners_message_id := none
                    winner_user_id := none
                    winner_message_id := none
                    winner_score := 0
                    created_at := now }, ?_, ?_, rfl, rfl, rfl⟩
          · simp [start_round, hw, hti, nextRoundId_resolve]
          · simp only [start_round, hw, hti, hpm]
            simp [rounds_resolve, nextRoundId_resolve, hw]

/-- C8 witness: with a resolvable webhook, a created thread and a failed
prompt post, the round is persisted running with a null prompt id. -/
theorem claim_C8_witness :
    ∃ r : Round,
      (start_round wCfg wStartEnv wDb 1 10 (some "p") 600 none 1000).1 =
        some (nextRoundId wDb) ∧
      (start_round wCfg wStartEnv wDb 1 10 (some "p") 600 none 1000).2.rounds =
        wDb.rounds ++ [r] ∧
      r.status = "running" ∧ r.prompt_message_id = none ∧
      r.round_id = nextRoundId wDb :=
  (claim_C8 wCfg wStartEnv wDb 1 10 (some "p") 600 none 1000).2.2 20
    (by decide) (by decide) (by decide)

/-- C9: every write of `duration_seconds` clamps to at least 30 — the
defaults insertion uses `max(30, default)` and the `/drop_config` update
uses `max(30, max(1, minutes) * 60)` — so `duration_seconds ≥ 30` is an
invariant of every settings row, preserved by every settings-writing
operation and by the engine operations. -/
theorem claim_C9 :
    (∀ (cfg : Cfg) (g : Nat), 30 ≤ (defaultSettingsRow cfg g).duration_seconds) ∧
    (∀ ch pr dm de ac (s : Settings) (m : Int), dm = some m →
      30 ≤ (dropConfigUpdates ch pr dm de ac s).duration_seconds) ∧
    (∀ (g : Nat) (op : SettingsOp) (db : DB), durationInvariant db →
      durationInvariant (applySettingsOp g op db)) ∧
    (∀ (cfg : Cfg) (env : EndEnv) (db : DB) (rid : Nat), durationInvariant db →
      durationInvariant (end_round cfg env db rid).1) ∧
    (∀ (cfg : Cfg) (env : StartEnv) (db : DB) (guild channel : Nat)
      (pt : Option String) (dur : Int) (ping : Option Nat) (now : Nat),
      durationInvariant db →
      durationInvariant (start_round cfg env db guild channel pt dur ping now).2) ∧
    (∀ (cfg : Cfg) (msg : InMsg) (now : Nat) (db : DB), durationInvariant db →
      durationInvariant (on_message cfg msg now db).1) ∧
    (∀ (dayOf : Nat → String) (cfg : Cfg) (env : GuildTickEnv) (t : TickTime)
      (g : Nat) (db : DB), durationInvariant db →
      durationInvariant (tickForGuild dayOf cfg env t g db)) := by
  refine ⟨?_, ?_, ?_, ?_, ?_, ?_, ?_⟩
  · intro cfg g
    exact le_max_left ..
  · intro ch pr dm de ac s m hm
    subst hm
    rcases ch with _ | c <;> rcases pr with _ | p <;> rcases de with _ | b <;>
      rcases ac with _ | a <;> simp [dropConfigUpdates] <;> omega
  · intro g op db h
    rcases op with cfg | ⟨cfg, ch, pr, dm, de, ac, rand, today⟩ | ⟨rand, today⟩ | cfg
    · exact durInv_getOrCreate h
    · have h1 : durationInvariant (updateSettingsRow (getOrCreateSettings cfg db g).2
          g (dropConfigUpdates ch pr dm de ac)) :=
        durInv_updateRow (durInv_getOrCreate h)
          (durInv_dropConfigUpdates ch pr dm de ac)
      show durationInvariant (applySettingsOp g (.dropConfig cfg ch pr dm de ac
        rand today) db)
      simp only [applySettingsOp]
      split
      · exact durInv_getToday h1
      · exact h1
    · show durationInvariant (applySettingsOp g (.ensureDailySchedule rand today) db)
      simp only [applySettingsOp]
      split
      · exact durInv_getToday h
      · exact h
    · exact durInv_resolve h
  · intro cfg env db rid h
    exact durInv_end_round h
  · intro cfg env db guild channel pt dur ping now h
    exact durInv_start_round h
  · intro cfg msg now db h
    exact durInv_on_message h
  · intro dayOf cfg env t g db h
    exact durInv_tickForGuild h

/-- C9 witness: a `/drop_config` with one requested minute stores 60, and
the invariant is preserved on the concrete database. -/
theorem claim_C9_witness :
    (some (1 : Int) = some 1 →
      30 ≤ (dropConfigUpdates (some 10) none (some 1) none none
        wSettings).duration_seconds) ∧
    durationInvariant (applySettingsOp 1
      (SettingsOp.dropConfig wCfg (some 10) none (some 1) none none
        "14:32" "2026-10-12") wDb) :=
  ⟨claim_C9.2.1 (some 10) none (some 1) none none wSettings 1,
   claim_C9.2.2.1 1 (SettingsOp.dropConfig wCfg (some 10) none (some 1) none none
     "14:32" "2026-10-12") wDb (by unfold durationInvariant wDb wSettings; decide)⟩

/-- C10: for every URL, `is_domain_allowed` returns false whenever every
comma-separated piece of the allow-list strips to the empty string (empty
CSV, or whitespace and commas only): the validator itself never falls back
to a default allow-list. -/
theorem claim_C10 (url csv : String) (h : ∀ e ∈ splitComma csv, strip e = "") :
    is_domain_allowed url csv = false := by
  have hent : allowedEntries csv = [] := by
    unfold allowedEntries
    have hf : (splitComma csv).filter (fun x => strip x ≠ "") = [] := by
      rw [List.filter_eq_nil_iff]
      intro a ha
      simp [h a ha]
    rw [hf]
    rfl
  unfold is_domain_allowed
  rw [hent]
  simp

/-- C10 witness: a whitespace-and-commas allow-list rejects a YouTube URL. -/
theorem claim_C10_witness :
    (∀ e ∈ splitComma " , ,", strip e = "") ∧
      is_domain_allowed "https://youtube.com/watch" " , ," = false :=
  ⟨by decide, claim_C10 "https://youtube.com/watch" " , ," (by decide)⟩

/-- C2 counterexample: the claim asserts
`isAllowed("https://open.spotify.com/track/x", "spotify.com")` is false,
but the code accepts it — `open.spotify.com` ends with `.spotify.com`, so
the subdomain rule matches the entry `spotify.com`. -/
theorem claim_C2_counterexample :
    is_domain_allowed "https://open.spotify.com/track/x" "spotify.com" = true := by
  decide

/-- C2 (amended): `is_domain_allowed` is true iff the extracted domain
(lowercased, scheme/path/query/fragment/port stripped) is nonempty and
exactly equals, or is a dot-suffixed subdomain of, some trimmed,
lowercased, non-empty allow-list entry; a URL with no extractable domain
is never allowed; `isAllowed("https://open.spotify.com/track/x",
"spotify.com")` is TRUE (subdomain match), the `open.spotify.com` entry
matches an `open.spotify.com` URL, and `evilopen.spotify.com` is rejected
against `open.spotify.com` (no dot boundary). -/
theorem claim_C2 :
    (∀ url csv : String,
      is_domain_allowed url csv = true ↔
        (domain_from_url url ≠ "" ∧ ∃ a ∈ allowedEntries csv,
          domain_from_url url = a ∨
            ∃ p : String, domain_from_url url = p ++ ("." ++ a))) ∧
    (∀ url csv : String, domain_from_url url = "" → is_domain_allowed url csv = false) ∧
    is_domain_allowed "https://open.spotify.com/track/x" "spotify.com" = true ∧
    is_domain_allowed "https://open.spotify.com/track/x" "open.spotify.com" = true ∧
    is_domain_allowed "https://evilopen.spotify.com/x" "open.spotify.com" = false := by
  refine ⟨is_domain_allowed_iff, ?_, by decide, by decide, by decide⟩
  intro url csv hd
  unfold is_domain_allowed
  simp [hd]

/-- C2 witness: the no-extractable-domain part applied at `https://`. -/
theorem claim_C2_witness :
    domain_from_url "https://" = "" ∧
      is_domain_allowed "https://" "youtube.com" = false :=
  ⟨by decide, claim_C2.2.1 "https://" "youtube.com" (by decide)⟩

/-- C3: `extract_first_url` returns the first maximal substring starting
with a case-insensitive `http://` or `https://` scheme followed by a
nonempty run of non-whitespace, non-bracket characters; it returns `none`
exactly when no such substring exists; and on
`"check this out https://youtu.be/abc123 nice"` it returns exactly
`"https://youtu.be/abc123"`. -/
theorem claim_C3 :
    (∀ text u : String, extract_first_url text = some u → FirstUrl text.data u.data) ∧
    (∀ text : String, extract_first_url text = none →
      ∀ i v, ¬ UrlMatchAt (text.data.drop i) v) ∧
    extract_first_url "check this out https://youtu.be/abc123 nice" =
      some "https://youtu.be/abc123" := by
  refine ⟨?_, ?_, by decide⟩
  · intro text u h
    unfold extract_first_url at h
    split at h
    · exact absurd h (by simp)
    · rcases hf : findFirstUrl text.data with _ | u₀
      · rw [hf] at h
        exact absurd h (by simp)
      · rw [hf] at h
        simp only [Option.map_some'] at h
        obtain ⟨i, hi, hlt⟩ := findFirstUrl_sound hf
        have hdata : u.data = u₀ := by
          rw [← Option.some.inj h]
          show stripList u₀ = u₀
          exact stripList_eq_self (matchUrlAt_not_ws hi)
        rw [hdata]
        refine ⟨i, matchUrlAt_sound hi, ?_⟩
        intro j hj v hv
        have hc := matchUrlAt_complete hv
        rw [hlt j hj] at hc
        exact absurd hc (by simp)
  · intro text h i v hv
    have hc := matchUrlAt_complete hv
    unfold extract_first_url at h
    split at h
    · rename_i hnil
      rw [hnil, List.drop_nil] at hc
      rw [show matchUrlAt ([] : List Char) = none from by decide] at hc
      exact absurd hc (by simp)
    · rcases hf : findFirstUrl text.data with _ | u₀
      · rw [findFirstUrl_none hf i] at hc
        exact absurd hc (by simp)
      · rw [hf] at h
        exact absurd h (by simp)

/-- C3 witness: the concrete extraction is a first maximal URL match. -/
theorem claim_C3_witness :
    FirstUrl "check this out https://youtu.be/abc123 nice".data
      "https://youtu.be/abc123".data :=
  claim_C3.1 "check this out https://youtu.be/abc123 nice" "https://youtu.be/abc123"
    (by decide)

end DropTheTrack
